import Mathlib

/-!
# Verification of the GRAX intersection-aware graph builder

This file gives a shallow embedding, in Lean 4, of `grax.create_network`
(`src/core.py`): the routine that turns a list of polylines (each an array of
`(local_id, x, y)` rows) into an undirected graph whose nodes are the polyline
vertices plus synthesized intersection points.

Modelling conventions:

* Coordinates are exact rationals (`ℚ`).  Arithmetic is expressed through
  kernel-computable helpers (`qadd`, `qsub`, `qmul`, `qdiv`, `qle`) defined on
  the numerator/denominator representation, so that concrete runs of the
  embedded program can be evaluated by `decide`.
* `shapely`'s `LineString.intersection` on two straight two-point segments is
  modelled by `segIntersect`, whose result is `empty`, a single point, or a
  (collinear, non-degenerate) `overlap` — the three geometric outcomes for a
  pair of straight segments.  Accessing `.x` on a non-point result raises in
  Python; the embedding mirrors this with `Except.error`.
* `networkx.Graph` is modelled by `Graph`: an insertion-ordered node list with
  optional `x, y` attributes and an insertion-ordered list of undirected edges
  with no parallel duplicates.  `add_node` on an existing key overwrites its
  attributes; `add_edge` silently creates missing endpoints (attribute-free)
  and ignores an already-present edge; `remove_edge` removes the edge in
  either orientation.
* Python `f'r_{line}_{id}'` / `f'is_{i}_{j}_{k}'` formatting is modelled by
  `mkRId` / `mkIsId` via `Nat.repr` (decimal, identical to Python's `str` for
  naturals).
-/

namespace Grax

/-- Decidable equality for `Except` results, so that concrete runs of the
embedded program can be checked by `decide`. -/
instance {ε α : Type} [DecidableEq ε] [DecidableEq α] : DecidableEq (Except ε α) := fun a b =>
  match a, b with
  | .error e, .error e' =>
    if h : e = e' then .isTrue (by rw [h]) else .isFalse (by intro hc; cases hc; exact h rfl)
  | .error _, .ok _ => .isFalse (by intro hc; cases hc)
  | .ok _, .error _ => .isFalse (by intro hc; cases hc)
  | .ok a, .ok a' =>
    if h : a = a' then .isTrue (by rw [h]) else .isFalse (by intro hc; cases hc; exact h rfl)

/-- A 2-D point with exact rational coordinates. -/
abbrev Pt : Type := ℚ × ℚ

/-- Exact rational addition on the num/den representation (kernel-computable
model of the exact value `a + b`). -/
def qadd (a b : ℚ) : ℚ := Rat.divInt (a.num * b.den + b.num * a.den) (a.den * b.den)

/-- Exact rational subtraction. -/
def qsub (a b : ℚ) : ℚ := Rat.divInt (a.num * b.den - b.num * a.den) (a.den * b.den)

/-- Exact rational multiplication. -/
def qmul (a b : ℚ) : ℚ := Rat.divInt (a.num * b.num) (a.den * b.den)

/-- Exact rational division. -/
def qdiv (a b : ℚ) : ℚ := Rat.divInt (a.num * b.den) (a.den * b.num)

/-- Exact rational comparison `a ≤ b`. -/
def qle (a b : ℚ) : Bool := a.num * b.den ≤ b.num * a.den

/-- Minimum with respect to `qle`. -/
def qmin (a b : ℚ) : ℚ := if qle a b then a else b

/-- Maximum with respect to `qle`. -/
def qmax (a b : ℚ) : ℚ := if qle a b then b else a

/-- 2-D cross product `(ax, ay) × (bx, by)`. -/
def qcross (ax ay bx by2 : ℚ) : ℚ := qsub (qmul ax by2) (qmul ay bx)

/-- `p` lies on the closed segment from `a` to `b` (collinear and inside the
bounding box). -/
def onSeg (a b p : Pt) : Bool :=
  qcross (qsub b.1 a.1) (qsub b.2 a.2) (qsub p.1 a.1) (qsub p.2 a.2) = 0
  && qle (qmin a.1 b.1) p.1 && qle p.1 (qmax a.1 b.1)
  && qle (qmin a.2 b.2) p.2 && qle p.2 (qmax a.2 b.2)

/-- Outcome of intersecting two straight two-point segments, as produced by
`shapely`: nothing, a single point, or a non-degenerate collinear overlap
(`shapely` returns a `LineString` in the last case). -/
inductive SegInt : Type where
  | empty : SegInt
  | pt : ℚ → ℚ → SegInt
  | overlap : SegInt
deriving DecidableEq

/-- Geometric intersection of segments `p1p2` and `p3p4`; models
`LineString([p1,p2]).intersection(LineString([p3,p4]))` with exact
arithmetic.  Degenerate (zero-length) segments are treated as points, as GEOS
does. -/
def segIntersect (p1 p2 p3 p4 : Pt) : SegInt :=
  let d1x := qsub p2.1 p1.1
  let d1y := qsub p2.2 p1.2
  let d2x := qsub p4.1 p3.1
  let d2y := qsub p4.2 p3.2
  let denom := qcross d1x d1y d2x d2y
  if denom ≠ 0 then
    let ex := qsub p3.1 p1.1
    let ey := qsub p3.2 p1.2
    let t := qdiv (qcross ex ey d2x d2y) denom
    let u := qdiv (qcross ex ey d1x d1y) denom
    if qle 0 t && qle t 1 && qle 0 u && qle u 1 then
      .pt (qadd p1.1 (qmul t d1x)) (qadd p1.2 (qmul t d1y))
    else .empty
  else
    if d1x = 0 ∧ d1y = 0 then
      if d2x = 0 ∧ d2y = 0 then
        if p1 = p3 then .pt p1.1 p1.2 else .empty
      else
        if onSeg p3 p4 p1 then .pt p1.1 p1.2 else .empty
    else if d2x = 0 ∧ d2y = 0 then
      if onSeg p1 p2 p3 then .pt p3.1 p3.2 else .empty
    else
      -- parallel, both segments non-degenerate
      let ex := qsub p3.1 p1.1
      let ey := qsub p3.2 p1.2
      if qcross ex ey d1x d1y ≠ 0 then .empty
      else
        -- collinear: compare positions along the direction of `p1p2`
        let proj : Pt → ℚ := fun p =>
          qadd (qmul (qsub p.1 p1.1) d1x) (qmul (qsub p.2 p1.2) d1y)
        let t2 := qadd (qmul d1x d1x) (qmul d1y d1y)
        let s3 := proj p3
        let s4 := proj p4
        let lo := qmax 0 (qmin s3 s4)
        let hi := qmin t2 (qmax s3 s4)
        if ¬ qle lo hi then .empty
        else if lo = hi then
          .pt (qadd p1.1 (qmul (qdiv lo t2) d1x)) (qadd p1.2 (qmul (qdiv lo t2) d1y))
        else .overlap

/-- Node id of a line vertex: Python `f'r_{line}_{loc}'`. -/
def mkRId (line loc : Nat) : String := "r_" ++ Nat.repr line ++ "_" ++ Nat.repr loc

/-- Node id of an intersection vertex: Python `f'is_{i}_{j}_{k}'`. -/
def mkIsId (i j k : Nat) : String := "is_" ++ Nat.repr i ++ "_" ++ Nat.repr j ++ "_" ++ Nat.repr k

/-- Model of `networkx.Graph`: insertion-ordered nodes with optional `(x, y)`
attributes, and insertion-ordered undirected edges without parallel
duplicates. -/
structure Graph : Type where
  nodes : List (String × Option (ℚ × ℚ))
  edges : List (String × String)
deriving DecidableEq

/-- The empty graph (`nx.Graph()`). -/
def Graph.empty : Graph := ⟨[], []⟩

/-- Key membership test. -/
def Graph.hasNode (G : Graph) (v : String) : Bool := G.nodes.any (fun p => p.1 == v)

/-- `G.add_node(v, x=x, y=y)`: overwrite the attributes if the key exists,
append otherwise. -/
def Graph.addNode (G : Graph) (v : String) (x y : ℚ) : Graph :=
  if G.hasNode v then
    { G with nodes := G.nodes.map (fun p => if p.1 == v then (v, some (x, y)) else p) }
  else
    { G with nodes := G.nodes ++ [(v, some (x, y))] }

/-- `G.has_edge(u, v)` (either orientation). -/
def Graph.hasEdge (G : Graph) (u v : String) : Bool :=
  G.edges.any (fun e => (e.1 == u && e.2 == v) || (e.1 == v && e.2 == u))

/-- `G.add_edge(u, v)`: create missing endpoints without attributes, then add
the edge unless already present. -/
def Graph.addEdge (G : Graph) (u v : String) : Graph :=
  let G1 := if G.hasNode u then G else { G with nodes := G.nodes ++ [(u, none)] }
  let G2 := if G1.hasNode v then G1 else { G1 with nodes := G1.nodes ++ [(v, none)] }
  if G2.hasEdge u v then G2 else { G2 with edges := G2.edges ++ [(u, v)] }

/-- `G.remove_edge(u, v)` (only ever called under a `has_edge` guard in the
source). -/
def Graph.removeEdge (G : Graph) (u v : String) : Graph :=
  { G with
    edges := G.edges.filter (fun e => !((e.1 == u && e.2 == v) || (e.1 == v && e.2 == u))) }

/-- Degree of `v`: number of incident edge endpoints (a self-loop counts
twice, as in `networkx`). -/
def Graph.degree (G : Graph) (v : String) : Nat :=
  G.edges.foldl (fun n e => n + (if e.1 == v then 1 else 0) + (if e.2 == v then 1 else 0)) 0

/-- Attribute lookup for a node key. -/
def Graph.attr (G : Graph) (v : String) : Option (Option (ℚ × ℚ)) :=
  (G.nodes.find? (fun p => p.1 == v)).map (·.2)

/-- List of node keys. -/
def Graph.keys (G : Graph) : List String := G.nodes.map (·.1)

/-- An input row `(local_id, x, y)` of one polyline array. -/
abbrev InPoint : Type := Nat × ℚ × ℚ

/-- A working-sequence entry after line assembly: rewritten string id plus
coordinates (the Python code stores these in the same object array). -/
abbrev Vtx : Type := String × ℚ × ℚ

/-- PART 1, one line: add one node per point (rewriting the stored id), then
one edge per consecutive pair.  Mirrors the body of the `for itm` loop of
`create_network`. -/
def part1Line (gLineId : Nat) (pts : List InPoint) (G : Graph) : Graph × List Vtx :=
  let st := pts.foldl
    (fun (st : Graph × List Vtx) p =>
      let nid := mkRId gLineId p.1
      (st.1.addNode nid p.2.1 p.2.2, st.2 ++ [(nid, p.2.1, p.2.2)]))
    (G, [])
  let G2 := (List.range (st.2.length - 1)).foldl
    (fun g jj => g.addEdge ((st.2.getD jj ("", 0, 0)).1) ((st.2.getD (jj + 1) ("", 0, 0)).1))
    st.1
  (G2, st.2)

/-- PART 1 over all lines, threading the `g_line_id` counter. -/
def part1 (L : List (List InPoint)) : Graph × List (List Vtx) :=
  let st := L.foldl
    (fun (st : Graph × List (List Vtx) × Nat) pts =>
      let r := part1Line st.2.2 pts st.1
      (r.1, st.2.1 ++ [r.2], st.2.2 + 1))
    (Graph.empty, [], 0)
  (st.1, st.2.1)

/-- State threaded through PART 2: the graph, the working sequences, and the
`intersection_id` counter. -/
structure P2St : Type where
  G : Graph
  lst : List (List Vtx)
  interId : Nat

/-- The edge surgery around one crossing on one line (source lines 163–168
and 180–184): connect the new node to the segment's two snapshot endpoints,
then remove their direct edge if present. -/
def spliceEdges (G : Graph) (nid a b : String) : Graph :=
  let G2 := (G.addEdge nid a).addEdge nid b
  if G2.hasEdge a b then G2.removeEdge a b else G2

/-- Materialize one crossing, exactly as lines 153–192 of `src/core.py` do:
add the intersection node `is_<i>_<j>_<interId>` at `(ix, iy)`; connect it to
the two snapshot endpoints `a`, `b` of line `i`'s segment `i1` and remove
their direct edge if present; splice the new vertex into line `i`'s live
sequence after position `i1`; then the same for line `j` with endpoints `c`,
`d` at position `i2`; finally bump the counter (the source increments it
right after forming the id). -/
def materialize (i j : Nat) (a b c d : String) (i1 i2 : Nat) (ix iy : ℚ)
    (s : P2St) : P2St :=
  let nid := mkIsId i j s.interId
  let G1 := spliceEdges (s.G.addNode nid ix iy) nid a b
  let lst1 := s.lst.set i ((s.lst.getD i []).insertIdx (i1 + 1) (nid, ix, iy))
  let G2 := spliceEdges G1 nid c d
  let lst2 := lst1.set j ((lst1.getD j []).insertIdx (i2 + 1) (nid, ix, iy))
  { G := G2, lst := lst2, interId := s.interId + 1 }

/-- PART 2, innermost body: test segment `i1` of the pair's first snapshot
against segment `i2` of the second snapshot and, on a point intersection,
materialize the crossing.  A non-point (overlap) intersection makes Python's
`intersection.x` raise; this is the `error` case. -/
def segBody (i j : Nat) (ids1 ids2 : List String) (c1 c2 : List Pt) (i1 i2 : Nat)
    (s : P2St) : Except String P2St :=
  match segIntersect (c1.getD i1 (0, 0)) (c1.getD (i1 + 1) (0, 0))
      (c2.getD i2 (0, 0)) (c2.getD (i2 + 1) (0, 0)) with
  | .empty => .ok s
  | .overlap => .error "LineString object has no attribute x"
  | .pt ix iy =>
    .ok (materialize i j (ids1.getD i1 "") (ids1.getD (i1 + 1) "")
      (ids2.getD i2 "") (ids2.getD (i2 + 1) "") i1 i2 ix iy s)

/-- PART 2, one `(i, j)` pair: snapshot the two lines' coordinates and ids
(lines 133–137 of the source — taken once, before the nested segment loops),
then run the nested loops over segment indices of the snapshots. -/
def pairBody (i : Nat) (s : P2St) (j : Nat) : Except String P2St :=
  let line1 := s.lst.getD i []
  let line2 := s.lst.getD j []
  let c1 := line1.map (fun v => (v.2.1, v.2.2))
  let c2 := line2.map (fun v => (v.2.1, v.2.2))
  let ids1 := line1.map (·.1)
  let ids2 := line2.map (·.1)
  (List.range (c1.length - 1)).foldlM
    (fun s i1 =>
      (List.range (c2.length - 1)).foldlM
        (fun s i2 => segBody i j ids1 ids2 c1 c2 i1 i2 s) s)
    s

/-- PART 2, one outer iteration: `intersection_id` is (re)set to `0` at the
top of the `for i` loop, then all pairs `(i, j)`, `j = i+1 … n-1`, run. -/
def outerBody (n : Nat) (st : Graph × List (List Vtx)) (i : Nat) :
    Except String (Graph × List (List Vtx)) :=
  ((List.range' (i + 1) (n - 1 - i)).foldlM (pairBody i)
      { G := st.1, lst := st.2, interId := 0 }).map
    (fun s => (s.G, s.lst))

/-- PART 2 over all pairs. -/
def part2 (n : Nat) (st : Graph × List (List Vtx)) :
    Except String (Graph × List (List Vtx)) :=
  (List.range (n - 1)).foldlM (outerBody n) st

/-- `grax.create_network`, returning the final graph together with the final
working sequences (the Python function returns just the graph; the sequences
are exposed here for stating invariants). -/
def create_network_full (L : List (List InPoint)) :
    Except String (Graph × List (List Vtx)) :=
  part2 L.length (part1 L)

/-- `grax.create_network` proper: the returned graph. -/
def create_network (L : List (List InPoint)) : Except String Graph :=
  (create_network_full L).map (·.1)

/-- The working sequence produced for line `i` by line assembly: every row's
id rewritten to `r_<i>_<local_id>`, coordinates kept. -/
def rewriteLine (i : Nat) (pts : List InPoint) : List Vtx :=
  pts.map (fun p => (mkRId i p.1, p.2.1, p.2.2))

/-- The node ids derived from line `i`. -/
def lineNodeIds (i : Nat) (pts : List InPoint) : List String :=
  pts.map (fun p => mkRId i p.1)

/-- Consecutive pairs of a list, in order. -/
def consecPairs {α : Type} (l : List α) : List (α × α) := l.zip l.tail

/-- The path edges line assembly creates for line `i`. -/
def pathEdges (i : Nat) (pts : List InPoint) : List (String × String) :=
  consecPairs (lineNodeIds i pts)

/-- The edges of an edge list with both endpoints in `S` (the edge set of the
subgraph induced by `S`). -/
def edgesWithin (S : List String) (E : List (String × String)) : List (String × String) :=
  E.filter (fun e => S.contains e.1 && S.contains e.2)

/-- The `grax` object: `verbose` plus the two fields `__init__` creates.
`create_network` reads none of them (`verbose` only guards prints). -/
structure grax : Type where
  verbose : Nat
  all_pt_mats : Option (List (List InPoint))
  graph : Option Graph

/-- The method `grax.create_network`: computes the graph from `L` and stores
it on `self.graph_`. -/
def grax.create_network (self : grax) (L : List (List InPoint)) :
    Except String (grax × Graph) :=
  (Grax.create_network L).map (fun G => ({ self with graph := some G }, G))

/-! ### A store-passing model for the aliasing/frame claim

`create_network` receives a Python list `L` of `numpy` arrays.  `Lst =
L.copy()` copies only the list (the array objects are shared); the arrays
are then replaced by fresh `astype(object)` copies, and the only in-place
writes (`Lst[itm][i][0] = …`) and `np.insert` rebindings act on those fresh
copies.  To settle the frame claim we re-run the code over an explicit store
mapping array ids to array contents; `np.insert` allocates a fresh array and
rebinds, so PART 2 performs no in-place writes at all and its value-level
behaviour is exactly `part2` applied to the dereferenced working
sequences. -/

/-- One id cell of an object-dtype array row: the original numeric local id,
or the rewritten string node id. -/
inductive Cell : Type where
  | num : Nat → Cell
  | str : String → Cell
deriving DecidableEq

/-- Python string formatting of a cell (`f'…{node_id}…'`). -/
def Cell.fmt : Cell → String
  | .num n => Nat.repr n
  | .str s => s

/-- One row of an object-dtype array: id cell plus coordinates. -/
abbrev Row : Type := Cell × ℚ × ℚ

/-- A store of allocated arrays: allocation counter plus contents per array
id. -/
structure Store : Type where
  next : Nat
  mem : List (Nat × List Row)

/-- Dereference an array id. -/
def Store.read (σ : Store) (a : Nat) : List Row := ((σ.mem.lookup a).getD [])

/-- Overwrite the contents of array `a`. -/
def Store.write (σ : Store) (a : Nat) (rows : List Row) : Store :=
  { σ with mem := σ.mem.map (fun p => if p.1 = a then (a, rows) else p) }

/-- Allocate a fresh array holding `rows`. -/
def Store.alloc (σ : Store) (rows : List Row) : Store × Nat :=
  ({ next := σ.next + 1, mem := σ.mem ++ [(σ.next, rows)] }, σ.next)

/-- All of an array id's rows still carry numeric (input) ids. -/
def Store.numericArr (σ : Store) (a : Nat) : Prop :=
  ∀ r ∈ σ.read a, ∃ n, r.1 = Cell.num n

/-- Every allocated id is below the allocation counter. -/
def Store.wf (σ : Store) : Prop := ∀ p ∈ σ.mem, p.1 < σ.next

/-- View a (numeric) row as an input point; the fallback `0` is never used on
well-formed input. -/
def Row.toInPoint (r : Row) : InPoint :=
  (match r.1 with | .num n => n | .str _ => 0, r.2.1, r.2.2)

/-- The array row holding a rewritten working-sequence vertex. -/
def rowOfVtx (v : Vtx) : Row := (Cell.str v.1, v.2.1, v.2.2)

/-- One step of the node loop of PART 1 performed through the store: `for i in
range(len(Lst[itm]))` reads row `i`, adds the node, and writes the rewritten
id back into the array. -/
def p1hNode (gLineId arr : Nat) (sg : Store × Graph) (i : Nat) : Store × Graph :=
  let row := (sg.1.read arr).getD i (Cell.num 0, 0, 0)
  let nid := "r_" ++ Nat.repr gLineId ++ "_" ++ row.1.fmt
  ((sg.1.write arr ((sg.1.read arr).set i (Cell.str nid, row.2.1, row.2.2))),
   sg.2.addNode nid row.2.1 row.2.2)

/-- One step of the edge loop of `part1HeapLine`, reading the rewritten rows
back out of the store. -/
def p1hEdge (arr : Nat) (σf : Store) (g : Graph) (j : Nat) : Graph :=
  let r1 := (σf.read arr).getD j (Cell.num 0, 0, 0)
  let r2 := (σf.read arr).getD (j + 1) (Cell.num 0, 0, 0)
  g.addEdge r1.1.fmt r2.1.fmt

/-- PART 1 for one line, performed through the store: the node loop rewrites
the array in place, then the edge loop reads the rewritten rows. -/
def part1HeapLine (σ : Store) (gLineId : Nat) (arr : Nat) (G : Graph) : Store × Graph :=
  let n := (σ.read arr).length
  let sg := (List.range n).foldl (p1hNode gLineId arr) (σ, G)
  let G2 := (List.range (n - 1)).foldl (p1hEdge arr sg.1) sg.2
  (sg.1, G2)

/-- The `astype(object)` copy of one slot of `Lst`: allocate a fresh array
with the same contents and rebind the slot to it. -/
def allocStep (sl : Store × List Nat) (a : Nat) : Store × List Nat :=
  let r := sl.1.alloc (sl.1.read a)
  (r.1, sl.2 ++ [r.2])

/-- One line of PART 1 through the store, threading the `g_line_id` counter. -/
def heapLineStep (sg : Store × Graph × Nat) (a : Nat) : Store × Graph × Nat :=
  let r := part1HeapLine sg.1 sg.2.2 a sg.2.1
  (r.1, r.2, sg.2.2 + 1)

/-- `create_network` through the store: `Lst = L.copy()` (same array ids),
`astype(object)` replaces each slot by a fresh copy, PART 1 writes through
those fresh ids, and PART 2 — which never writes in place — runs at value
level on the dereferenced working sequences. -/
def create_network_heap (σ : Store) (L : List Nat) : Store × Except String Graph :=
  let sl := L.foldl allocStep (σ, [])
  let sg := sl.2.foldl heapLineStep (sl.1, Graph.empty, 0)
  let lst : List (List Vtx) :=
    sl.2.map (fun a => (sg.1.read a).map (fun r => (r.1.fmt, r.2.1, r.2.2)))
  (sg.1, (part2 L.length (sg.2.1, lst)).map (·.1))

/-- A concrete two-array store: the caller's `numpy` arrays for the input
`[[(1,0,0),(2,1,0)], [(1,5,5),(2,6,5)]]`. -/
def storeEx : Store :=
  { next := 2,
    mem := [(0, [(Cell.num 1, 0, 0), (Cell.num 2, 1, 0)]),
            (1, [(Cell.num 1, 5, 5), (Cell.num 2, 6, 5)])] }

/-- Closed form of the node list produced by line assembly from line id `c`
on. -/
def allNodesFrom (c : Nat) (L : List (List InPoint)) : List (String × Option (ℚ × ℚ)) :=
  match L with
  | [] => []
  | pts :: rest =>
    pts.map (fun p => (mkRId c p.1, some (p.2.1, p.2.2))) ++ allNodesFrom (c + 1) rest

/-- Closed form of the edge list produced by line assembly from line id `c`
on. -/
def allEdgesFrom (c : Nat) (L : List (List InPoint)) : List (String × String) :=
  match L with
  | [] => []
  | pts :: rest => pathEdges c pts ++ allEdgesFrom (c + 1) rest

/-- Closed form of the working sequences produced by line assembly from line
id `c` on. -/
def allLstFrom (c : Nat) (L : List (List InPoint)) : List (List Vtx) :=
  match L with
  | [] => []
  | pts :: rest => rewriteLine c pts :: allLstFrom (c + 1) rest


/-- The ids stored in a working sequence. -/
def vtxIds (l : List Vtx) : List String := l.map (·.1)

/-- Well-formedness of the PART 2 state over `n` lines: there are `n` working
sequences; every id in working sequence `t` is either a line-`t` vertex id or
an intersection id; and every id in a working sequence is a node key of the
graph. -/
def wfSt (n : Nat) (st : P2St) : Prop :=
  st.lst.length = n ∧
    ∀ t, t < n → ∀ v ∈ st.lst.getD t [],
      ((∃ loc, v.1 = mkRId t loc) ∨ ∃ a b c, v.1 = mkIsId a b c) ∧ v.1 ∈ st.G.keys

/-- Growth relation between PART 2 states: the number of lines is unchanged,
working sequences only grow, and node keys only accumulate. -/
def stepRel (s s' : P2St) : Prop :=
  s.lst.length = s'.lst.length ∧
    (∀ t, (s.lst.getD t []).length ≤ (s'.lst.getD t []).length) ∧
    ∀ x ∈ s.G.keys, x ∈ s'.G.keys

/-- During outer iteration `i`: every intersection id in the graph either has
a first line index outside `avoid` (the current and remaining outer indices)
or was created in this iteration, with counter value below the live
`intersection_id`. -/
def isIdsDuring (avoid : List Nat) (i : Nat) (st : P2St) : Prop :=
  ∀ a b k, mkIsId a b k ∈ st.G.keys → a ∉ avoid ∨ (a = i ∧ k < st.interId)

/-- The `k`-components of the intersection ids with first index `i` present
in `G` are exactly `0, …, c−1`. -/
def ksProp (G : Graph) (i c : Nat) : Prop :=
  ∀ k, (∃ j, mkIsId i j k ∈ G.keys) ↔ k < c

/-- The node-count bookkeeping equation: every `add_node` so far used a fresh
key, which makes twice the node count equal the original total vertex count
plus the current total length of the working sequences (each materialization
adds one node and lengthens two sequences by one each). -/
def countEq (totalOrig : Nat) (st : P2St) : Prop :=
  2 * st.G.nodes.length = totalOrig + (st.lst.map List.length).sum

/-- The claim-C6 invariant for line `m` with original working sequence
`oSeq` and original path edges `oPath`: either line `m` is untouched and the
induced subgraph on its node ids is exactly its original path, or some
intersection vertex has been spliced into its sequence (making it longer than
the original). -/
def c6Part (m : Nat) (oSeq : List Vtx) (oPath : List (String × String)) (st : P2St) : Prop :=
  (st.lst.getD m [] = oSeq ∧ edgesWithin (vtxIds oSeq) st.G.edges = oPath) ∨
    oSeq.length < (st.lst.getD m []).length


/-- The bundled PART 2 invariant, threaded through the nested loops of
intersection resolution during outer iteration `i`.  `n` is the line count,
`avoid` the list of outer indices not yet completed (including `i`), `T` the
total original vertex count, and `m`, `oSeq`, `oPath` the line observed by
the claim-C6 component. -/
def masterInv (n : Nat) (avoid : List Nat) (i : Nat) (T m : Nat)
    (oSeq : List Vtx) (oPath : List (String × String)) (st : P2St) : Prop :=
  wfSt n st ∧ isIdsDuring avoid i st ∧ ksProp st.G i st.interId ∧
    (∀ i', i' ∉ avoid → ∃ c, ksProp st.G i' c) ∧ countEq T st ∧ c6Part m oSeq oPath st ∧
    st.G.keys.Nodup

/-- The bundled PART 2 invariant between outer iterations: `rest` is the
list of outer indices still to run. -/
def restInv (n : Nat) (rest : List Nat) (T m : Nat)
    (oSeq : List Vtx) (oPath : List (String × String))
    (st : Graph × List (List Vtx)) : Prop :=
  wfSt n ⟨st.1, st.2, 0⟩ ∧ (∀ a b k, mkIsId a b k ∈ st.1.keys → a ∉ rest) ∧
    (∀ i', i' ∉ rest → ∃ c, ksProp st.1 i' c) ∧ countEq T ⟨st.1, st.2, 0⟩ ∧
    c6Part m oSeq oPath ⟨st.1, st.2, 0⟩ ∧ st.1.keys.Nodup

/-! ### Decimal formatting: characterization and injectivity -/

theorem toDigitsCore_eq_digits :
    ∀ (f n : Nat) (acc : List Char), n ≠ 0 → n ≤ f →
      Nat.toDigitsCore 10 f n acc = ((Nat.digits 10 n).map Nat.digitChar).reverse ++ acc := by
  intro f
  induction f with
  | zero => intro n acc hn hle; omega
  | succ f ih =>
    intro n acc hn hle
    rw [Nat.digits_def' (by norm_num : 1 < 10) (Nat.pos_of_ne_zero hn)]
    simp only [Nat.toDigitsCore, List.map_cons, List.reverse_cons]
    by_cases h10 : n / 10 = 0
    · rw [if_pos h10, h10]
      simp
    · rw [if_neg h10]
      have hlt : n / 10 < n := Nat.div_lt_self (Nat.pos_of_ne_zero hn) (by norm_num)
      rw [ih (n / 10) (Nat.digitChar (n % 10) :: acc) h10 (by omega)]
      simp

theorem natRepr_data (n : Nat) (hn : n ≠ 0) :
    (Nat.repr n).data = ((Nat.digits 10 n).map Nat.digitChar).reverse := by
  show (List.asString (Nat.toDigits 10 n)).data = _
  rw [Nat.toDigits, toDigitsCore_eq_digits (n + 1) n [] hn (by omega)]
  simp [List.asString]

theorem natRepr_data_zero : (Nat.repr 0).data = ['0'] := by decide

theorem digitChar_inj_lt : ∀ a < 10, ∀ b < 10, Nat.digitChar a = Nat.digitChar b → a = b := by
  decide

theorem digitChar_ne_underscore : ∀ d < 10, Nat.digitChar d ≠ '_' := by decide

theorem map_digitChar_inj :
    ∀ (l1 l2 : List Nat), (∀ d ∈ l1, d < 10) → (∀ d ∈ l2, d < 10) →
      l1.map Nat.digitChar = l2.map Nat.digitChar → l1 = l2 := by
  intro l1
  induction l1 with
  | nil => intro l2 _ _ h; cases l2 <;> simp_all
  | cons a t ih =>
    intro l2 h1 h2 h
    cases l2 with
    | nil => simp_all
    | cons b t2 =>
      simp only [List.map_cons, List.cons.injEq] at h
      have hab : a = b :=
        digitChar_inj_lt a (h1 a (by simp)) b (h2 b (by simp)) h.1
      rw [hab, ih t2 (fun d hd => h1 d (by simp [hd])) (fun d hd => h2 d (by simp [hd])) h.2]

theorem natRepr_inj : ∀ (m n : Nat), Nat.repr m = Nat.repr n → m = n := by
  have hdig : ∀ k : Nat, k ≠ 0 → Nat.repr k ≠ Nat.repr 0 := by
    intro k hk h
    have hd := congrArg String.data h
    rw [natRepr_data k hk, natRepr_data_zero] at hd
    have hrev := congrArg List.reverse hd
    simp only [List.reverse_reverse] at hrev
    have hzero : Nat.digitChar 0 = '0' := by decide
    have hdg : Nat.digits 10 k = [0] := by
      apply map_digitChar_inj
      · exact fun d hd' => Nat.digits_lt_base (by norm_num) hd'
      · intro d hd'; simp at hd'; omega
      · simpa [hzero] using hrev
    have hofd := Nat.ofDigits_digits 10 k
    rw [hdg] at hofd
    simp [Nat.ofDigits] at hofd
    exact hk hofd.symm
  intro m n h
  by_cases hm : m = 0
  · by_cases hn : n = 0
    · omega
    · subst hm; exact absurd h.symm (hdig n hn)
  · by_cases hn : n = 0
    · subst hn; exact absurd h (hdig m hm)
    · have hd := congrArg String.data h
      rw [natRepr_data m hm, natRepr_data n hn] at hd
      have hrev := congrArg List.reverse hd
      simp only [List.reverse_reverse] at hrev
      have hdg : Nat.digits 10 m = Nat.digits 10 n :=
        map_digitChar_inj _ _ (fun d hd' => Nat.digits_lt_base (by norm_num) hd')
          (fun d hd' => Nat.digits_lt_base (by norm_num) hd') hrev
      have h1 := Nat.ofDigits_digits 10 m
      have h2 := Nat.ofDigits_digits 10 n
      rw [← h1, ← h2, hdg]

theorem natRepr_no_underscore : ∀ (n : Nat), '_' ∉ (Nat.repr n).data := by
  intro n
  by_cases hn : n = 0
  · subst hn; rw [natRepr_data_zero]; decide
  · rw [natRepr_data n hn]
    intro hmem
    simp only [List.mem_reverse, List.mem_map] at hmem
    obtain ⟨d, hd, hdc⟩ := hmem
    exact digitChar_ne_underscore d (Nat.digits_lt_base (by norm_num) hd) hdc

theorem sep_split :
    ∀ (l1 l2 r1 r2 : List Char), '_' ∉ l1 → '_' ∉ l2 →
      l1 ++ '_' :: r1 = l2 ++ '_' :: r2 → l1 = l2 ∧ r1 = r2 := by
  intro l1
  induction l1 with
  | nil =>
    intro l2 r1 r2 _ h2 h
    cases l2 with
    | nil => simp_all
    | cons b t2 =>
      simp only [List.nil_append, List.cons_append, List.cons.injEq] at h
      exact absurd (h.1 ▸ List.mem_cons_self b t2) (h.1 ▸ fun hm => h2 (h.1 ▸ hm))
  | cons a t ih =>
    intro l2 r1 r2 h1 h2 h
    cases l2 with
    | nil =>
      simp only [List.cons_append, List.nil_append, List.cons.injEq] at h
      exact absurd (h.1 ▸ List.mem_cons_self a t) (fun hm => h1 (h.1 ▸ hm))
    | cons b t2 =>
      simp only [List.cons_append, List.cons.injEq] at h
      have := ih t2 r1 r2 (fun hm => h1 (List.mem_cons_of_mem a hm))
        (fun hm => h2 (h.1 ▸ List.mem_cons_of_mem b hm)) h.2
      exact ⟨by rw [h.1, this.1], this.2⟩

theorem string_ext {s t : String} (h : s.data = t.data) : s = t := by
  cases s; cases t; exact congrArg String.mk h

theorem mkRId_data (i loc : Nat) :
    (mkRId i loc).data = 'r' :: '_' :: ((Nat.repr i).data ++ '_' :: (Nat.repr loc).data) := by
  simp [mkRId, String.data_append]

theorem mkIsId_data (i j k : Nat) :
    (mkIsId i j k).data =
      'i' :: 's' :: '_' ::
        ((Nat.repr i).data ++ '_' :: ((Nat.repr j).data ++ '_' :: (Nat.repr k).data)) := by
  simp [mkIsId, String.data_append]

theorem mkRId_inj {i loc i' loc' : Nat} (h : mkRId i loc = mkRId i' loc') :
    i = i' ∧ loc = loc' := by
  have hd := congrArg String.data h
  rw [mkRId_data, mkRId_data] at hd
  simp only [List.cons.injEq, true_and] at hd
  have := sep_split _ _ _ _ (natRepr_no_underscore i) (natRepr_no_underscore i') hd
  exact ⟨natRepr_inj _ _ (string_ext this.1),
    natRepr_inj _ _ (string_ext this.2)⟩

theorem mkIsId_inj {i j k i' j' k' : Nat} (h : mkIsId i j k = mkIsId i' j' k') :
    i = i' ∧ j = j' ∧ k = k' := by
  have hd := congrArg String.data h
  rw [mkIsId_data, mkIsId_data] at hd
  simp only [List.cons.injEq, true_and] at hd
  have h1 := sep_split _ _ _ _ (natRepr_no_underscore i) (natRepr_no_underscore i') hd
  have h2 := sep_split _ _ _ _ (natRepr_no_underscore j) (natRepr_no_underscore j') h1.2
  exact ⟨natRepr_inj _ _ (string_ext h1.1), natRepr_inj _ _ (string_ext h2.1),
    natRepr_inj _ _ (string_ext h2.2)⟩

theorem mkRId_ne_mkIsId (i loc a b c : Nat) : mkRId i loc ≠ mkIsId a b c := by
  intro h
  have hd := congrArg String.data h
  rw [mkRId_data, mkIsId_data] at hd
  simp at hd

/-! ### Generic induction principles for `foldlM` over `Except` -/

theorem error_bind {σ τ : Type} (e : String) (g : σ → Except String τ) :
    (Except.error e >>= g) = Except.error e := rfl

theorem ok_bind {σ τ : Type} (y : σ) (g : σ → Except String τ) :
    (Except.ok y >>= g : Except String τ) = g y := rfl

theorem foldlM_ok_induct {σ α : Type} (P : σ → Prop) (f : σ → α → Except String σ) :
    ∀ (l : List α) (s s' : σ), (∀ x a y, a ∈ l → P x → f x a = .ok y → P y) → P s →
      l.foldlM f s = .ok s' → P s' := by
  intro l
  induction l with
  | nil => intro s s' _ hs h; simp only [List.foldlM_nil] at h; cases h; exact hs
  | cons a t ih =>
    intro s s' hstep hs h
    simp only [List.foldlM_cons] at h
    cases hfa : f s a with
    | error e => rw [hfa, error_bind] at h; exact Except.noConfusion h
    | ok y =>
      rw [hfa, ok_bind] at h
      exact ih y s' (fun x b z hb => hstep x b z (by simp [hb]))
        (hstep s a y (by simp) hs hfa) h

theorem foldlM_ok_suffix {σ α : Type} (P : σ → List α → Prop) (f : σ → α → Except String σ) :
    ∀ (l : List α) (s s' : σ), (∀ x a rest y, P x (a :: rest) → f x a = .ok y → P y rest) →
      P s l → l.foldlM f s = .ok s' → P s' [] := by
  intro l
  induction l with
  | nil => intro s s' _ hs h; simp only [List.foldlM_nil] at h; cases h; exact hs
  | cons a t ih =>
    intro s s' hstep hs h
    simp only [List.foldlM_cons] at h
    cases hfa : f s a with
    | error e => rw [hfa, error_bind] at h; exact Except.noConfusion h
    | ok y =>
      rw [hfa, ok_bind] at h
      exact ih y s' (fun x b rest z => hstep x b rest z) (hstep s a t y hs hfa) h

theorem foldlM_ok_chain {σ α : Type} (R : σ → σ → Prop) (f : σ → α → Except String σ)
    (htrans : ∀ a b c, R a b → R b c → R a c) (hrefl : ∀ s, R s s) :
    ∀ (l : List α) (s s' : σ), (∀ x a y, a ∈ l → f x a = .ok y → R x y) →
      l.foldlM f s = .ok s' → R s s' := by
  intro l
  induction l with
  | nil => intro s s' _ h; simp only [List.foldlM_nil] at h; cases h; exact hrefl s
  | cons a t ih =>
    intro s s' hstep h
    simp only [List.foldlM_cons] at h
    cases hfa : f s a with
    | error e => rw [hfa, error_bind] at h; exact Except.noConfusion h
    | ok y =>
      rw [hfa, ok_bind] at h
      exact htrans s y s' (hstep s a y (by simp) hfa)
        (ih y s' (fun x b z hb => hstep x b z (by simp [hb])) h)

/-! ### Basic lemmas about the `Graph` operations -/

theorem hasNode_iff (G : Graph) (v : String) : G.hasNode v = true ↔ v ∈ G.keys := by
  simp [Graph.hasNode, Graph.keys, List.any_eq_true]

theorem keys_addNode (G : Graph) (v : String) (x y : ℚ) :
    (G.addNode v x y).keys = if v ∈ G.keys then G.keys else G.keys ++ [v] := by
  by_cases h : v ∈ G.keys
  · rw [if_pos h]
    rw [Graph.addNode, if_pos ((hasNode_iff G v).mpr h)]
    simp only [Graph.keys, List.map_map]
    apply List.map_congr_left
    intro p _
    by_cases hp : p.1 = v
    · simp [hp]
    · simp [hp]
  · rw [if_neg h]
    rw [Graph.addNode, if_neg (by rw [hasNode_iff]; exact h)]
    simp [Graph.keys]

theorem edges_addNode (G : Graph) (v : String) (x y : ℚ) :
    (G.addNode v x y).edges = G.edges := by
  rw [Graph.addNode]
  by_cases h : G.hasNode v <;> simp [h]

theorem nodes_addNode_fresh (G : Graph) (v : String) (x y : ℚ) (h : v ∉ G.keys) :
    (G.addNode v x y).nodes = G.nodes ++ [(v, some (x, y))] := by
  rw [Graph.addNode, if_neg (by rw [hasNode_iff]; exact h)]

theorem nodes_addEdge (G : Graph) (u v : String) (hu : u ∈ G.keys) (hv : v ∈ G.keys) :
    (G.addEdge u v).nodes = G.nodes := by
  rw [Graph.addEdge]
  simp only [(hasNode_iff G u).mpr hu, if_true]
  simp only [(hasNode_iff G v).mpr hv, if_true]
  by_cases h : G.hasEdge u v <;> simp [h]

theorem keys_addEdge (G : Graph) (u v : String) (hu : u ∈ G.keys) (hv : v ∈ G.keys) :
    (G.addEdge u v).keys = G.keys := by
  rw [Graph.keys, nodes_addEdge G u v hu hv]; rfl

theorem edges_addEdge (G : Graph) (u v : String) :
    (G.addEdge u v).edges = if G.hasEdge u v then G.edges else G.edges ++ [(u, v)] := by
  have step2 : ∀ H : Graph, H.edges = G.edges →
      (if H.hasNode v then H else { H with nodes := H.nodes ++ [(v, none)] }).edges = G.edges := by
    intro H hH; by_cases h : H.hasNode v <;> simp [h, hH]
  have step1 : (if G.hasNode u then G
      else { G with nodes := G.nodes ++ [(u, none)] }).edges = G.edges := by
    by_cases h : G.hasNode u <;> simp [h]
  have key : ∀ H : Graph, H.edges = G.edges →
      (if H.hasEdge u v then H else { H with edges := H.edges ++ [(u, v)] }).edges =
        if G.hasEdge u v then G.edges else G.edges ++ [(u, v)] := by
    intro H hH
    have hh : H.hasEdge u v = G.hasEdge u v := by rw [Graph.hasEdge, Graph.hasEdge, hH]
    rw [hh]; by_cases h : G.hasEdge u v <;> simp [h, hH]
  exact key _ (step2 _ step1)

theorem keys_removeEdge (G : Graph) (u v : String) :
    (G.removeEdge u v).keys = G.keys := by
  rw [Graph.keys, Graph.removeEdge]; rfl

/-! ### Characterization of line assembly (PART 1) -/

theorem rewriteLine_fst (i : Nat) (pts : List InPoint) :
    (rewriteLine i pts).map (·.1) = lineNodeIds i pts := by
  simp [rewriteLine, lineNodeIds]

theorem lineNodeIds_eq_map (i : Nat) (pts : List InPoint) :
    lineNodeIds i pts = (pts.map (·.1)).map (mkRId i) := by
  simp [lineNodeIds]

theorem lineNodeIds_nodup (i : Nat) (pts : List InPoint)
    (hnd : (pts.map (·.1)).Nodup) : (lineNodeIds i pts).Nodup := by
  rw [lineNodeIds_eq_map]
  exact hnd.map (fun a b h => (mkRId_inj h).2)

theorem mem_lineNodeIds {s : String} {i : Nat} {pts : List InPoint}
    (h : s ∈ lineNodeIds i pts) : ∃ loc, s = mkRId i loc := by
  rw [lineNodeIds_eq_map] at h
  obtain ⟨loc, _, hl⟩ := List.mem_map.mp h
  exact ⟨loc, hl.symm⟩

theorem consecPairs_cons {α : Type} (a b : α) (t : List α) :
    consecPairs (a :: b :: t) = (a, b) :: consecPairs (b :: t) := rfl

theorem mem_consecPairs {α : Type} :
    ∀ (l : List α) (e : α × α), e ∈ consecPairs l → e.1 ∈ l ∧ e.2 ∈ l := by
  intro l
  induction l with
  | nil => intro e he; simp [consecPairs] at he
  | cons a t ih =>
    intro e he
    cases t with
    | nil => simp [consecPairs] at he
    | cons b t' =>
      rw [consecPairs_cons] at he
      rcases List.mem_cons.mp he with h | h
      · subst h; exact ⟨by simp, by simp⟩
      · have := ih e h
        exact ⟨List.mem_cons_of_mem a this.1, List.mem_cons_of_mem a this.2⟩

theorem part1Line_nodeFold (i : Nat) :
    ∀ (pts : List InPoint) (G : Graph) (acc : List Vtx),
      (pts.map (·.1)).Nodup →
      (∀ p ∈ pts, mkRId i p.1 ∉ G.keys) →
      pts.foldl
          (fun (st : Graph × List Vtx) p =>
            (st.1.addNode (mkRId i p.1) p.2.1 p.2.2,
             st.2 ++ [(mkRId i p.1, p.2.1, p.2.2)]))
          (G, acc) =
        ({ G with nodes := G.nodes ++ pts.map (fun p => (mkRId i p.1, some (p.2.1, p.2.2))) },
         acc ++ rewriteLine i pts) := by
  intro pts
  induction pts with
  | nil => intro G acc _ _; simp [rewriteLine]
  | cons p t ih =>
    intro G acc hnd hfresh
    simp only [List.foldl_cons]
    have hfp : mkRId i p.1 ∉ G.keys := hfresh p (by simp)
    have hG' : (G.addNode (mkRId i p.1) p.2.1 p.2.2).nodes =
        G.nodes ++ [(mkRId i p.1, some (p.2.1, p.2.2))] :=
      nodes_addNode_fresh G _ _ _ hfp
    have hG'keys : (G.addNode (mkRId i p.1) p.2.1 p.2.2).keys =
        G.keys ++ [mkRId i p.1] := by
      rw [Graph.keys, hG']; simp [Graph.keys]
    have hndt : (t.map (·.1)).Nodup := by
      simp only [List.map_cons, List.nodup_cons] at hnd
      exact hnd.2
    have hfresh' : ∀ q ∈ t, mkRId i q.1 ∉ (G.addNode (mkRId i p.1) p.2.1 p.2.2).keys := by
      intro q hq
      rw [hG'keys]
      intro hmem
      rcases List.mem_append.mp hmem with h | h
      · exact hfresh q (by simp [hq]) h
      · simp only [List.mem_singleton] at h
        have : q.1 = p.1 := (mkRId_inj h).2
        simp only [List.map_cons, List.nodup_cons] at hnd
        exact hnd.1 (this ▸ List.mem_map_of_mem (·.1) hq)
    rw [ih _ _ hndt hfresh']
    have hedges : (G.addNode (mkRId i p.1) p.2.1 p.2.2).edges = G.edges :=
      edges_addNode G _ _ _
    refine congrArg₂ Prod.mk ?_ ?_
    · rw [Graph.mk.injEq]
      constructor
      · rw [hG']; simp
      · rw [hedges]
    · simp [rewriteLine]

theorem hasEdge_false_of_not_touch (G : Graph) (u v : String)
    (h : ∀ e ∈ G.edges, e.1 ≠ v ∧ e.2 ≠ v) : G.hasEdge u v = false := by
  rw [Graph.hasEdge]
  rw [List.any_eq_false]
  intro e he
  have := h e he
  simp only [Bool.or_eq_true, Bool.and_eq_true, beq_iff_eq, not_or] at *
  constructor
  · intro hc; exact this.2 hc.2
  · intro hc; exact this.1 hc.1

theorem part1Line_edgeFold :
    ∀ (l : List Vtx) (G : Graph),
      ((l.map (·.1)).Nodup) →
      (∀ s ∈ l.map (·.1), s ∈ G.keys) →
      (∀ e ∈ G.edges, e.1 ∉ (l.map (·.1)).tail ∧ e.2 ∉ (l.map (·.1)).tail) →
      (List.range (l.length - 1)).foldl
          (fun g jj => g.addEdge ((l.getD jj ("", 0, 0)).1) ((l.getD (jj + 1) ("", 0, 0)).1)) G =
        { G with edges := G.edges ++ consecPairs (l.map (·.1)) } := by
  intro l
  induction l with
  | nil => intro G _ _ _; simp [consecPairs]
  | cons a t ih =>
    intro G hnd hpres hctx
    cases t with
    | nil => simp [consecPairs]
    | cons b t2 =>
      have hmemb : b.1 ∈ ((a :: b :: t2).map (·.1)).tail := by simp
      have hedgefalse : G.hasEdge a.1 b.1 = false := by
        apply hasEdge_false_of_not_touch
        intro e he
        exact ⟨fun h => (hctx e he).1 (h ▸ hmemb), fun h => (hctx e he).2 (h ▸ hmemb)⟩
      have hua : a.1 ∈ G.keys := hpres a.1 (by simp)
      have hub : b.1 ∈ G.keys := hpres b.1 (by simp)
      have hGedges : (G.addEdge a.1 b.1).edges = G.edges ++ [(a.1, b.1)] := by
        rw [edges_addEdge, hedgefalse]; simp
      have hGnodes : (G.addEdge a.1 b.1).nodes = G.nodes := nodes_addEdge G a.1 b.1 hua hub
      have hGkeys : (G.addEdge a.1 b.1).keys = G.keys := keys_addEdge G a.1 b.1 hua hub
      have hndt : (((b :: t2).map (·.1)).Nodup) := by
        simp only [List.map_cons, List.nodup_cons] at hnd ⊢
        exact ⟨hnd.2.1, hnd.2.2⟩
      have hprest : ∀ s ∈ (b :: t2).map (·.1), s ∈ (G.addEdge a.1 b.1).keys := by
        intro s hs
        rw [hGkeys]
        exact hpres s (by simp only [List.map_cons] at hs ⊢; exact List.mem_cons_of_mem _ hs)
      have hctxt : ∀ e ∈ (G.addEdge a.1 b.1).edges,
          e.1 ∉ ((b :: t2).map (·.1)).tail ∧ e.2 ∉ ((b :: t2).map (·.1)).tail := by
        intro e he
        rw [hGedges] at he
        rcases List.mem_append.mp he with h | h
        · have h1 := hctx e h
          have hsub : ((b :: t2).map (·.1)).tail ⊆ ((a :: b :: t2).map (·.1)).tail := by
            simp only [List.map_cons, List.tail_cons]
            exact fun x hx => List.mem_cons_of_mem _ hx
          exact ⟨fun hm => h1.1 (hsub hm), fun hm => h1.2 (hsub hm)⟩
        · simp only [List.mem_singleton] at h
          subst h
          simp only [List.map_cons, List.tail_cons]
          simp only [List.map_cons, List.nodup_cons, List.mem_cons] at hnd
          constructor
          · intro hm; exact hnd.1 (Or.inr hm)
          · intro hm; exact hnd.2.1 hm
      have hih := ih (G.addEdge a.1 b.1) hndt hprest hctxt
      have hshow : (List.range ((a :: b :: t2).length - 1)).foldl
          (fun g jj => g.addEdge (((a :: b :: t2).getD jj ("", 0, 0)).1)
            (((a :: b :: t2).getD (jj + 1) ("", 0, 0)).1)) G =
          (List.range ((b :: t2).length - 1)).foldl
          (fun g jj => g.addEdge (((b :: t2).getD jj ("", 0, 0)).1)
            (((b :: t2).getD (jj + 1) ("", 0, 0)).1)) (G.addEdge a.1 b.1) := by
        have hlen : (a :: b :: t2).length - 1 = ((b :: t2).length - 1) + 1 := by simp
        rw [hlen, List.range_succ_eq_map, List.foldl_cons, List.foldl_map]
        rfl
      rw [hshow, hih]
      rw [Graph.mk.injEq]
      refine ⟨hGnodes, ?_⟩
      rw [hGedges]
      simp only [List.map_cons]
      rw [consecPairs_cons]
      simp

theorem part1Line_spec (i : Nat) (pts : List InPoint) (G : Graph)
    (hnd : (pts.map (·.1)).Nodup)
    (hkeys : ∀ p ∈ pts, mkRId i p.1 ∉ G.keys)
    (hedges : ∀ e ∈ G.edges, (∀ loc, e.1 ≠ mkRId i loc) ∧ (∀ loc, e.2 ≠ mkRId i loc)) :
    part1Line i pts G =
      ({ nodes := G.nodes ++ pts.map (fun p => (mkRId i p.1, some (p.2.1, p.2.2))),
         edges := G.edges ++ pathEdges i pts }, rewriteLine i pts) := by
  have hnode := part1Line_nodeFold i pts G [] hnd hkeys
  have G1 : Graph :=
    { G with nodes := G.nodes ++ pts.map (fun p => (mkRId i p.1, some (p.2.1, p.2.2))) }
  have hkeys1 : ({ G with
      nodes := G.nodes ++ pts.map (fun p => (mkRId i p.1, some (p.2.1, p.2.2))) } : Graph).keys
      = G.keys ++ lineNodeIds i pts := by
    simp [Graph.keys, lineNodeIds]
  have hedge := part1Line_edgeFold (rewriteLine i pts)
    { G with nodes := G.nodes ++ pts.map (fun p => (mkRId i p.1, some (p.2.1, p.2.2))) }
    (by rw [rewriteLine_fst]; exact lineNodeIds_nodup i pts hnd)
    (by
      intro s hs
      rw [rewriteLine_fst] at hs
      rw [hkeys1]
      exact List.mem_append.mpr (Or.inr hs))
    (by
      intro e he
      simp only at he
      rw [rewriteLine_fst]
      have h1 := hedges e he
      constructor
      · intro hm
        obtain ⟨loc, hl⟩ := mem_lineNodeIds (List.mem_of_mem_tail hm)
        exact h1.1 loc hl
      · intro hm
        obtain ⟨loc, hl⟩ := mem_lineNodeIds (List.mem_of_mem_tail hm)
        exact h1.2 loc hl)
  rw [part1Line]
  simp only []
  rw [hnode]
  simp only [List.nil_append]
  have hlenr : (rewriteLine i pts).length = pts.length := by simp [rewriteLine]
  rw [hedge]
  rw [rewriteLine_fst]
  rfl

theorem part1_go :
    ∀ (R : List (List InPoint)) (G : Graph) (acc : List (List Vtx)) (c : Nat),
      (∀ pts ∈ R, (pts.map (·.1)).Nodup) →
      (∀ s ∈ G.keys, ∀ i loc, c ≤ i → s ≠ mkRId i loc) →
      (∀ e ∈ G.edges,
        (∀ i loc, c ≤ i → e.1 ≠ mkRId i loc) ∧ (∀ i loc, c ≤ i → e.2 ≠ mkRId i loc)) →
      R.foldl
          (fun (st : Graph × List (List Vtx) × Nat) pts =>
            ((part1Line st.2.2 pts st.1).1, st.2.1 ++ [(part1Line st.2.2 pts st.1).2],
              st.2.2 + 1))
          (G, acc, c) =
        ({ nodes := G.nodes ++ allNodesFrom c R, edges := G.edges ++ allEdgesFrom c R },
          acc ++ allLstFrom c R, c + R.length) := by
  intro R
  induction R with
  | nil =>
    intro G acc c _ _ _
    simp [allNodesFrom, allEdgesFrom, allLstFrom]
  | cons pts rest ih =>
    intro G acc c hnd hkeys hedges
    simp only [List.foldl_cons]
    have hline := part1Line_spec c pts G (hnd pts (by simp))
      (by
        intro p _ hmem
        exact hkeys _ hmem c p.1 (le_refl c) rfl)
      (by
        intro e he
        have h := hedges e he
        exact ⟨fun loc => h.1 c loc (le_refl c), fun loc => h.2 c loc (le_refl c)⟩)
    rw [hline]
    have hkeys2 : ∀ s ∈ (Graph.mk (G.nodes ++ pts.map (fun p => (mkRId c p.1, some (p.2.1, p.2.2))))
        (G.edges ++ pathEdges c pts)).keys, ∀ i loc, c + 1 ≤ i → s ≠ mkRId i loc := by
      intro s hs i loc hle
      simp only [Graph.keys, List.map_append, List.mem_append] at hs
      rcases hs with h | h
      · exact hkeys s h i loc (by omega)
      · simp only [List.map_map, List.mem_map] at h
        obtain ⟨p, _, hp⟩ := h
        intro hc
        rw [← hp] at hc
        simp only [Function.comp] at hc
        have := (mkRId_inj hc).1
        omega
    have hedges2 : ∀ e ∈ (Graph.mk (G.nodes ++ pts.map (fun p => (mkRId c p.1, some (p.2.1, p.2.2))))
        (G.edges ++ pathEdges c pts)).edges,
        (∀ i loc, c + 1 ≤ i → e.1 ≠ mkRId i loc) ∧ (∀ i loc, c + 1 ≤ i → e.2 ≠ mkRId i loc) := by
      intro e he
      simp only [List.mem_append] at he
      rcases he with h | h
      · have h1 := hedges e h
        exact ⟨fun i loc hle => h1.1 i loc (by omega), fun i loc hle => h1.2 i loc (by omega)⟩
      · have hm := mem_consecPairs _ e h
        obtain ⟨loc1, hl1⟩ := mem_lineNodeIds hm.1
        obtain ⟨loc2, hl2⟩ := mem_lineNodeIds hm.2
        constructor
        · intro i loc hle hc
          rw [hl1] at hc
          have := (mkRId_inj hc).1
          omega
        · intro i loc hle hc
          rw [hl2] at hc
          have := (mkRId_inj hc).1
          omega
    have hres := ih _ (acc ++ [rewriteLine c pts]) (c + 1)
      (fun q hq => hnd q (by simp [hq])) hkeys2 hedges2
    rw [hres]
    simp only [allNodesFrom, allEdgesFrom, allLstFrom]
    rw [Prod.mk.injEq, Prod.mk.injEq, Graph.mk.injEq]
    refine ⟨⟨by simp, by simp⟩, by simp, by simp [List.length_cons]; omega⟩

theorem part1_spec (L : List (List InPoint))
    (hnd : ∀ pts ∈ L, (pts.map (·.1)).Nodup) :
    part1 L = ({ nodes := allNodesFrom 0 L, edges := allEdgesFrom 0 L }, allLstFrom 0 L) := by
  rw [part1]
  simp only []
  have := part1_go L Graph.empty [] 0 hnd
    (by intro s hs; simp [Graph.empty, Graph.keys] at hs)
    (by intro e he; simp [Graph.empty] at he)
  rw [this]
  simp [Graph.empty]

/-! ### Claim C5 — line assembly node ids -/

/-- C5: line assembly alone (a single-line input never enters intersection
resolution) produces exactly one node `r_0_<local_id>` per vertex, carrying
that vertex's coordinates, and one edge per consecutive pair; on
`[[(1,0,0),(2,1,0)]]` this gives exactly nodes `r_0_1`, `r_0_2` and the edge
`(r_0_1, r_0_2)` (see the witness). -/
theorem C5_line_assembly_ids (pts : List InPoint) (hnd : (pts.map (·.1)).Nodup) :
    create_network [pts] =
      .ok ⟨pts.map (fun p => (mkRId 0 p.1, some (p.2.1, p.2.2))), pathEdges 0 pts⟩ := by
  rw [create_network, create_network_full]
  rw [part1_spec [pts] (by
    intro q hq
    simp only [List.mem_singleton] at hq
    subst hq
    exact hnd)]
  rw [part2]
  simp [allNodesFrom, allEdgesFrom, allLstFrom, Except.map, pure, Except.pure]

/-- Witness for C5 at the spec's concrete input `[[(1,0,0),(2,1,0)]]`. -/
theorem C5_line_assembly_ids_witness :
    ((([(1, 0, 0), (2, 1, 0)] : List InPoint).map (·.1)).Nodup) ∧
      create_network [[(1, 0, 0), (2, 1, 0)]] =
        .ok ⟨[("r_0_1", some (0, 0)), ("r_0_2", some (1, 0))], [("r_0_1", "r_0_2")]⟩ :=
  ⟨by decide, (C5_line_assembly_ids [(1, 0, 0), (2, 1, 0)] (by decide)).trans (by decide)⟩

/-! ### Claim C8 — determinism -/

/-- C8: `create_network` is a pure function of its input: its result — node
ids, attributes and edges alike — does not depend on the `grax` object's
state (`verbose`, previously stored matrices or graphs), so two runs on the
same input lines in the same order return identical graphs. -/
theorem C8_deterministic (g1 g2 : grax) (L : List (List InPoint)) :
    (g1.create_network L).map (·.2) = (g2.create_network L).map (·.2) := by
  rw [grax.create_network, grax.create_network]
  cases h : create_network L <;> simp [Except.map, h]

/-! ### Claim C4 — geometric edge cases (corrected) -/

/-- Counterexample to C4 as stated: on two exactly-overlapping segments the
code reaches `intersection.x` on a `LineString`, which raises — the pair is
not "skipped without error". -/
theorem C4_overlap_counterexample :
    create_network [[(1, 0, 0), (2, 2, 0)], [(1, 1, 0), (2, 3, 0)]] =
      .error "LineString object has no attribute x" := by decide

/-- C4 amended: an empty geometric intersection is skipped; an
exactly-overlapping (collinear, non-point) intersection raises an error that
propagates to the caller; a zero-length segment does not itself raise — when
disjoint from the other segment it is skipped, and when it lies on the other
segment it produces a point intersection that is materialized. -/
theorem C4_degenerate_behaviour :
    create_network [[(1, 0, 0), (2, 2, 0)], [(1, 1, 0), (2, 3, 0)]] =
        .error "LineString object has no attribute x" ∧
      create_network [[(1, 0, 0), (2, 0, 0)], [(1, 2, 0), (2, 3, 0)]] =
        .ok ⟨[("r_0_1", some (0, 0)), ("r_0_2", some (0, 0)),
              ("r_1_1", some (2, 0)), ("r_1_2", some (3, 0))],
             [("r_0_1", "r_0_2"), ("r_1_1", "r_1_2")]⟩ ∧
      create_network [[(1, 1, 0), (2, 1, 0)], [(1, 0, 0), (2, 2, 0)]] =
        .ok ⟨[("r_0_1", some (1, 0)), ("r_0_2", some (1, 0)),
              ("r_1_1", some (0, 0)), ("r_1_2", some (2, 0)),
              ("is_0_1_0", some (1, 0))],
             [("is_0_1_0", "r_0_1"), ("is_0_1_0", "r_0_2"),
              ("is_0_1_0", "r_1_1"), ("is_0_1_0", "r_1_2")]⟩ := by
  refine ⟨by decide, by decide, by decide⟩

/-! ### Claim C7 — malformed input (corrected) -/

/-- Counterexample to C7 as stated: an empty point sequence does not raise an
input-validation error; `create_network` silently returns a graph. -/
theorem C7_empty_line_counterexample :
    create_network [[]] = .ok ⟨[], []⟩ := by decide

/-- C7 amended: `create_network` performs no input validation — an empty
point sequence is silently tolerated, contributes no nodes and no edges, and
the remaining lines are processed normally. -/
theorem C7_no_validation :
    create_network [[]] = .ok ⟨[], []⟩ ∧
      create_network [[], [(1, 0, 0), (2, 1, 0)]] =
        .ok ⟨[("r_1_1", some (0, 0)), ("r_1_2", some (1, 0))], [("r_1_1", "r_1_2")]⟩ := by
  refine ⟨by decide, by decide⟩

/-! ### Claim C2 — staleness of the per-pair snapshots (code bug) -/

set_option maxRecDepth 10000 in
/-- Evaluation of the code at the failing input for C2.  Line 0 is the single
segment `(0,0)–(4,0)`; line 1 is a V that crosses it at `(3/2, 0)` and at
`(5/2, 0)`.  Because `item1_coords`/`item1_coords_pointID` are computed once
per pair (lines 133–137) and never refreshed, the second crossing is tested
against and wired to the ORIGINAL endpoints `r_0_1`, `r_0_2` instead of the
updated sub-segment: the output contains edges `(is_0_1_1, r_0_1)` and
`(is_0_1_1, r_0_2)`, no edge between `is_0_1_1` and `is_0_1_0`, and the edge
`(is_0_1_0, r_0_2)` — which geometrically passes through `(5/2, 0)` —
survives. -/
theorem C2_stale_snapshot_evaluation :
    create_network [[(1, 0, 0), (2, 4, 0)], [(1, 1, 1), (2, 2, -1), (3, 3, 1)]] =
      .ok ⟨[("r_0_1", some (0, 0)), ("r_0_2", some (4, 0)),
            ("r_1_1", some (1, 1)), ("r_1_2", some (2, -1)), ("r_1_3", some (3, 1)),
            ("is_0_1_0", some (Rat.divInt 3 2, 0)), ("is_0_1_1", some (Rat.divInt 5 2, 0))],
           [("is_0_1_0", "r_0_1"), ("is_0_1_0", "r_0_2"),
            ("is_0_1_0", "r_1_1"), ("is_0_1_0", "r_1_2"),
            ("is_0_1_1", "r_0_1"), ("is_0_1_1", "r_0_2"),
            ("is_0_1_1", "r_1_2"), ("is_0_1_1", "r_1_3")]⟩ := by
  decide

/-! ### Claim C3 — intersection-id numbering (corrected) -/

set_option maxRecDepth 10000 in
/-- Counterexample to C3 as stated: with three lines, where line 0 crosses
line 1 once and line 2 once, the first (and only) intersection discovered for
the pair `(0, 2)` is numbered `is_0_2_1`, not `is_0_2_0`: the
`intersection_id` counter is reset per outer line `i` (line 129 of the
source), not per pair `(i, j)`. -/
theorem C3_per_pair_counter_counterexample :
    ∃ G, create_network [[(1, 0, 0), (2, 4, 0)], [(1, 1, -1), (2, 1, 1)],
        [(1, 3, -1), (2, 3, 1)]] = .ok G ∧
      G.hasNode "is_0_2_0" = false ∧ G.hasNode "is_0_2_1" = true ∧
      G.attr "is_0_2_1" = some (some (3, 0)) := by
  refine ⟨⟨[("r_0_1", some (0, 0)), ("r_0_2", some (4, 0)), ("r_1_1", some (1, -1)),
      ("r_1_2", some (1, 1)), ("r_2_1", some (3, -1)), ("r_2_2", some (3, 1)),
      ("is_0_1_0", some (1, 0)), ("is_0_2_1", some (3, 0))],
    [("is_0_1_0", "r_0_1"), ("is_0_1_0", "r_1_1"), ("is_0_1_0", "r_1_2"),
      ("is_0_2_1", "is_0_1_0"), ("is_0_2_1", "r_0_2"), ("is_0_2_1", "r_2_1"),
      ("is_0_2_1", "r_2_2")]⟩, by decide, by decide, by decide, by decide⟩

/-! ### Claim C1 — crossing materialization -/

/-- Evaluation of `create_network` on two single-segment lines whose segments
intersect in one point: shared helper for claim C1. -/
theorem two_line_crossing_eval
    (a1 a2 b1 b2 : Nat) (x1 y1 x2 y2 x3 y3 x4 y4 px py : ℚ)
    (ha : a1 ≠ a2) (hb : b1 ≠ b2)
    (hseg : segIntersect (x1, y1) (x2, y2) (x3, y3) (x4, y4) = .pt px py) :
    create_network [[(a1, x1, y1), (a2, x2, y2)], [(b1, x3, y3), (b2, x4, y4)]] =
      .ok ⟨[(mkRId 0 a1, some (x1, y1)), (mkRId 0 a2, some (x2, y2)),
            (mkRId 1 b1, some (x3, y3)), (mkRId 1 b2, some (x4, y4)),
            (mkIsId 0 1 0, some (px, py))],
           [(mkIsId 0 1 0, mkRId 0 a1), (mkIsId 0 1 0, mkRId 0 a2),
            (mkIsId 0 1 0, mkRId 1 b1), (mkIsId 0 1 0, mkRId 1 b2)]⟩ := by
  have neAB : mkRId 0 a1 ≠ mkRId 0 a2 := fun h => ha (mkRId_inj h).2
  have neCD : mkRId 1 b1 ≠ mkRId 1 b2 := fun h => hb (mkRId_inj h).2
  have ne01 : ∀ u v : Nat, mkRId 0 u ≠ mkRId 1 v := fun u v h =>
    (by decide : (0 : Nat) ≠ 1) (mkRId_inj h).1
  have neI : ∀ u : Nat, ∀ c : Nat, mkRId c u ≠ mkIsId 0 1 0 := fun u c h =>
    mkRId_ne_mkIsId c u 0 1 0 h
  have ne10 : ∀ u v : Nat, mkRId 1 u ≠ mkRId 0 v := fun u v h =>
    (by decide : (1 : Nat) ≠ 0) (mkRId_inj h).1
  have neI2 : ∀ u : Nat, ∀ c : Nat, mkIsId 0 1 0 ≠ mkRId c u := fun u c h =>
    mkRId_ne_mkIsId c u 0 1 0 h.symm
  have hnd : ∀ pts ∈ [[(a1, x1, y1), (a2, x2, y2)], [(b1, x3, y3), (b2, x4, y4)]],
      ((pts.map (fun p : InPoint => p.1)).Nodup) := by
    intro pts hp
    rcases List.mem_cons.mp hp with h | h
    · subst h; simp [ha]
    · simp only [List.mem_singleton] at h; subst h; simp [hb]
  rw [create_network, create_network_full, part1_spec _ hnd]
  simp only [allNodesFrom, allEdgesFrom, allLstFrom, pathEdges, lineNodeIds, consecPairs,
    rewriteLine, List.map_cons, List.map_nil, List.zip, List.zipWith, List.tail_cons,
    List.append_nil, List.nil_append, List.append_assoc, List.cons_append]
  rw [part2]
  have hr1 : List.range (List.length
      ([[(a1, x1, y1), (a2, x2, y2)], [(b1, x3, y3), (b2, x4, y4)]] : List (List InPoint)) - 1)
      = [0] := rfl
  rw [hr1]
  simp only [List.foldlM_cons, List.foldlM_nil]
  rw [outerBody]
  have hr2 : List.range' (0 + 1) (List.length
      ([[(a1, x1, y1), (a2, x2, y2)], [(b1, x3, y3), (b2, x4, y4)]] : List (List InPoint)) - 1 - 0)
      = [1] := rfl
  rw [hr2]
  simp only [List.foldlM_cons, List.foldlM_nil]
  rw [pairBody]
  simp only [List.getD_cons_zero, List.getD_cons_succ, List.map_cons, List.map_nil,
    List.length_cons, List.length_nil]
  have hr3 : List.range (0 + 1 + 1 - 1) = [0] := rfl
  rw [hr3]
  simp only [List.foldlM_cons, List.foldlM_nil]
  rw [segBody]
  simp only [List.getD_cons_zero, List.getD_cons_succ]
  rw [hseg]
  simp only [materialize, spliceEdges, Graph.addNode, Graph.addEdge, Graph.hasNode,
    Graph.hasEdge, Graph.removeEdge,
    List.any_cons, List.any_nil, beq_iff_eq, beq_self_eq_true, List.insertIdx, List.set,
    List.getD_cons_zero, List.getD_cons_succ,
    ok_bind, error_bind, Except.map, pure, Except.pure]
  simp [neAB, neCD, ne01, neI, ne10, neI2, neAB.symm, neCD.symm]

/-- C1: for any two single-segment lines (with distinct local ids within each
line) whose segments cross in exactly one point `P = (px, py)` interior to
both, the output graph has exactly one intersection node — its id is
`is_0_1_0` — carrying the coordinates of `P`, with degree 4, adjacent to both
endpoints of the crossed segment on each line, and with the direct edge
between the two original endpoints absent for both lines. -/
theorem C1_crossing_materialization
    (a1 a2 b1 b2 : Nat) (x1 y1 x2 y2 x3 y3 x4 y4 px py : ℚ)
    (ha : a1 ≠ a2) (hb : b1 ≠ b2)
    (hseg : segIntersect (x1, y1) (x2, y2) (x3, y3) (x4, y4) = .pt px py)
    (hint : (px, py) ≠ (x1, y1) ∧ (px, py) ≠ (x2, y2) ∧
      (px, py) ≠ (x3, y3) ∧ (px, py) ≠ (x4, y4)) :
    ∃ G, create_network [[(a1, x1, y1), (a2, x2, y2)], [(b1, x3, y3), (b2, x4, y4)]] = .ok G ∧
      mkIsId 0 1 0 = "is_0_1_0" ∧
      G.keys = [mkRId 0 a1, mkRId 0 a2, mkRId 1 b1, mkRId 1 b2, mkIsId 0 1 0] ∧
      (∀ i j k, mkIsId i j k ∈ G.keys → i = 0 ∧ j = 1 ∧ k = 0) ∧
      G.attr (mkIsId 0 1 0) = some (some (px, py)) ∧
      G.degree (mkIsId 0 1 0) = 4 ∧
      G.hasEdge (mkIsId 0 1 0) (mkRId 0 a1) = true ∧
      G.hasEdge (mkIsId 0 1 0) (mkRId 0 a2) = true ∧
      G.hasEdge (mkIsId 0 1 0) (mkRId 1 b1) = true ∧
      G.hasEdge (mkIsId 0 1 0) (mkRId 1 b2) = true ∧
      G.hasEdge (mkRId 0 a1) (mkRId 0 a2) = false ∧
      G.hasEdge (mkRId 1 b1) (mkRId 1 b2) = false := by
  have neI2 : ∀ u : Nat, ∀ c : Nat, mkIsId 0 1 0 ≠ mkRId c u := fun u c h =>
    mkRId_ne_mkIsId c u 0 1 0 h.symm
  have neRI : ∀ u c : Nat, mkRId c u ≠ mkIsId 0 1 0 := fun u c =>
    mkRId_ne_mkIsId c u 0 1 0
  have bRI : ∀ u c : Nat, (mkRId c u == mkIsId 0 1 0) = false := fun u c =>
    beq_eq_false_iff_ne.mpr (neRI u c)
  refine ⟨_, two_line_crossing_eval a1 a2 b1 b2 x1 y1 x2 y2 x3 y3 x4 y4 px py ha hb hseg,
    by decide, by simp [Graph.keys], ?_, ?_, ?_, ?_, ?_, ?_, ?_, ?_, ?_⟩
  · intro i j k hk
    simp only [Graph.keys, List.map_cons, List.map_nil, List.mem_cons,
      List.mem_singleton] at hk
    rcases hk with h | h | h | h | h
    · exact absurd h.symm (mkRId_ne_mkIsId 0 a1 i j k)
    · exact absurd h.symm (mkRId_ne_mkIsId 0 a2 i j k)
    · exact absurd h.symm (mkRId_ne_mkIsId 1 b1 i j k)
    · exact absurd h.symm (mkRId_ne_mkIsId 1 b2 i j k)
    · rcases h with h | h
      · obtain ⟨h1, h2, h3⟩ := mkIsId_inj h
        exact ⟨h1, h2, h3⟩
      · simp at h
  · simp [Graph.attr, List.find?, bRI]
  · simp [Graph.degree, List.foldl, neRI, beq_self_eq_true]
  · simp [Graph.hasEdge]
  · simp [Graph.hasEdge]
  · simp [Graph.hasEdge]
  · simp [Graph.hasEdge]
  · have neI3 : ∀ u c : Nat, (mkIsId 0 1 0 == mkRId c u) = false :=
      fun u c => beq_eq_false_iff_ne.mpr (neI2 u c)
    simp [Graph.hasEdge, neI3]
  · have neI3 : ∀ u c : Nat, (mkIsId 0 1 0 == mkRId c u) = false :=
      fun u c => beq_eq_false_iff_ne.mpr (neI2 u c)
    simp [Graph.hasEdge, neI3]

/-- Witness for C1 at the spec's example: line A `(0,0)–(2,0)`, line B
`(1,−1)–(1,1)`, crossing at `(1,0)`. -/
theorem C1_crossing_materialization_witness :
    ∃ G, create_network [[(1, 0, 0), (2, 2, 0)], [(1, 1, -1), (2, 1, 1)]] = .ok G ∧
      mkIsId 0 1 0 = "is_0_1_0" ∧
      G.keys = [mkRId 0 1, mkRId 0 2, mkRId 1 1, mkRId 1 2, mkIsId 0 1 0] ∧
      (∀ i j k, mkIsId i j k ∈ G.keys → i = 0 ∧ j = 1 ∧ k = 0) ∧
      G.attr (mkIsId 0 1 0) = some (some (1, 0)) ∧
      G.degree (mkIsId 0 1 0) = 4 ∧
      G.hasEdge (mkIsId 0 1 0) (mkRId 0 1) = true ∧
      G.hasEdge (mkIsId 0 1 0) (mkRId 0 2) = true ∧
      G.hasEdge (mkIsId 0 1 0) (mkRId 1 1) = true ∧
      G.hasEdge (mkIsId 0 1 0) (mkRId 1 2) = true ∧
      G.hasEdge (mkRId 0 1) (mkRId 0 2) = false ∧
      G.hasEdge (mkRId 1 1) (mkRId 1 2) = false :=
  C1_crossing_materialization 1 2 1 2 0 0 2 0 1 (-1) 1 1 1 0 (by decide) (by decide)
    (by decide) (by decide)

/-! ### Support lemmas for the PART 2 invariants -/

theorem keys_addNode_super (G : Graph) (v : String) (x y : ℚ) {s : String}
    (h : s ∈ G.keys) : s ∈ (G.addNode v x y).keys := by
  rw [keys_addNode]
  by_cases hv : v ∈ G.keys
  · rw [if_pos hv]; exact h
  · rw [if_neg hv]; exact List.mem_append.mpr (Or.inl h)

theorem mem_keys_addNode_self (G : Graph) (v : String) (x y : ℚ) :
    v ∈ (G.addNode v x y).keys := by
  rw [keys_addNode]
  by_cases hv : v ∈ G.keys
  · rw [if_pos hv]; exact hv
  · rw [if_neg hv]; simp

theorem mem_keys_addNode_elim (G : Graph) (v : String) (x y : ℚ) {s : String}
    (h : s ∈ (G.addNode v x y).keys) : s ∈ G.keys ∨ s = v := by
  rw [keys_addNode] at h
  by_cases hv : v ∈ G.keys
  · rw [if_pos hv] at h; exact Or.inl h
  · rw [if_neg hv] at h
    rcases List.mem_append.mp h with h | h
    · exact Or.inl h
    · simp only [List.mem_singleton] at h; exact Or.inr h

theorem length_nodes_addNode_fresh (G : Graph) (v : String) (x y : ℚ)
    (h : v ∉ G.keys) : (G.addNode v x y).nodes.length = G.nodes.length + 1 := by
  rw [nodes_addNode_fresh G v x y h]; simp

theorem nodes_removeEdge (G : Graph) (u v : String) :
    (G.removeEdge u v).nodes = G.nodes := rfl

theorem edges_removeEdge (G : Graph) (u v : String) :
    (G.removeEdge u v).edges =
      G.edges.filter (fun e => !((e.1 == u && e.2 == v) || (e.1 == v && e.2 == u))) := rfl

theorem edgesWithin_append (S : List String) (E1 E2 : List (String × String)) :
    edgesWithin S (E1 ++ E2) = edgesWithin S E1 ++ edgesWithin S E2 := by
  rw [edgesWithin, edgesWithin, edgesWithin, List.filter_append]

theorem edgesWithin_addEdge_not_mem (S : List String) (G : Graph) (u v : String)
    (hu : u ∉ S) : edgesWithin S (G.addEdge u v).edges = edgesWithin S G.edges := by
  rw [edges_addEdge]
  by_cases he : G.hasEdge u v
  · rw [if_pos he]
  · rw [if_neg he, edgesWithin_append]
    have hnil : edgesWithin S [(u, v)] = [] := by
      rw [edgesWithin]
      rw [List.filter_eq_nil_iff]
      intro e hee
      simp only [List.mem_singleton] at hee
      subst hee
      simp [List.contains, List.elem_eq_mem, hu]
    rw [hnil, List.append_nil]

theorem edgesWithin_removeEdge_not_mem (S : List String) (G : Graph) (u v : String)
    (hu : u ∉ S) : edgesWithin S (G.removeEdge u v).edges = edgesWithin S G.edges := by
  rw [edges_removeEdge, edgesWithin, edgesWithin, List.filter_filter]
  apply List.filter_congr
  intro e _
  by_cases h1 : e.1 ∈ S
  · by_cases h2 : e.2 ∈ S
    · have hne1 : e.1 ≠ u := fun hc => hu (hc ▸ h1)
      have hne2 : e.2 ≠ u := fun hc => hu (hc ▸ h2)
      simp [List.contains, List.elem_eq_mem, h1, h2, hne1, hne2]
    · simp [List.contains, List.elem_eq_mem, h2]
  · simp [List.contains, List.elem_eq_mem, h1]

theorem map_length_sum_set :
    ∀ (lst : List (List Vtx)) (i : Nat) (x : List Vtx), i < lst.length →
      ((lst.set i x).map List.length).sum + (lst.getD i []).length =
        (lst.map List.length).sum + x.length := by
  intro lst
  induction lst with
  | nil => intro i x h; simp at h
  | cons a t ih =>
    intro i x h
    cases i with
    | zero => simp [List.set]; omega
    | succ i =>
      simp only [List.set, List.map_cons, List.sum_cons, List.getD_cons_succ]
      have := ih i x (by simp at h; omega)
      omega

theorem getD_set_self (l : List (List Vtx)) (i : Nat) (x : List Vtx)
    (h : i < l.length) : (l.set i x).getD i [] = x := by
  simp [List.getD_eq_getElem?_getD, List.getElem?_set_self h]

theorem getD_set_ne (l : List (List Vtx)) (i t : Nat) (x : List Vtx)
    (h : i ≠ t) : (l.set i x).getD t [] = l.getD t [] := by
  simp [List.getD_eq_getElem?_getD, List.getElem?_set_ne h]

/-! ### Lemmas about `spliceEdges` and `materialize` -/

theorem keys_addEdge_super (G : Graph) (u v : String) {s : String} (h : s ∈ G.keys) :
    s ∈ (G.addEdge u v).keys := by
  have step : ∀ (H : Graph) (w : String), s ∈ H.keys →
      s ∈ (if H.hasNode w then H else { H with nodes := H.nodes ++ [(w, none)] }).keys := by
    intro H w hs
    by_cases hw : H.hasNode w
    · rw [if_pos hw]; exact hs
    · rw [if_neg hw]
      simp only [Graph.keys, List.map_append, List.mem_append]
      exact Or.inl hs
  have keyeq : ∀ H : Graph,
      (if H.hasEdge u v then H else { H with edges := H.edges ++ [(u, v)] }).keys = H.keys := by
    intro H; by_cases he : H.hasEdge u v <;> simp [he, Graph.keys]
  show s ∈ (Graph.addEdge G u v).keys
  unfold Graph.addEdge
  rw [keyeq]
  exact step _ v (step _ u h)

theorem keys_spliceEdges_super (G : Graph) (nid a b : String) {s : String}
    (h : s ∈ G.keys) : s ∈ (spliceEdges G nid a b).keys := by
  unfold spliceEdges
  have h2 : s ∈ ((G.addEdge nid a).addEdge nid b).keys :=
    keys_addEdge_super _ _ _ (keys_addEdge_super _ _ _ h)
  by_cases he : ((G.addEdge nid a).addEdge nid b).hasEdge a b
  · rw [if_pos he]
    rw [keys_removeEdge]
    exact h2
  · rw [if_neg he]
    exact h2

theorem keys_spliceEdges (G : Graph) (nid a b : String)
    (hn : nid ∈ G.keys) (ha : a ∈ G.keys) (hb : b ∈ G.keys) :
    (spliceEdges G nid a b).keys = G.keys := by
  unfold spliceEdges
  have e1 : (G.addEdge nid a).keys = G.keys := keys_addEdge G nid a hn ha
  have e2 : ((G.addEdge nid a).addEdge nid b).keys = G.keys := by
    rw [keys_addEdge _ nid b (by rw [e1]; exact hn) (by rw [e1]; exact hb), e1]
  by_cases he : ((G.addEdge nid a).addEdge nid b).hasEdge a b
  · rw [if_pos he, keys_removeEdge]
    exact e2
  · rw [if_neg he]
    exact e2

theorem nodes_spliceEdges (G : Graph) (nid a b : String)
    (hn : nid ∈ G.keys) (ha : a ∈ G.keys) (hb : b ∈ G.keys) :
  (spliceEdges G nid a b).nodes = G.nodes := by
  unfold spliceEdges
  have e1 : (G.addEdge nid a).nodes = G.nodes := nodes_addEdge G nid a hn ha
  have k1 : (G.addEdge nid a).keys = G.keys := keys_addEdge G nid a hn ha
  have e2 : ((G.addEdge nid a).addEdge nid b).nodes = G.nodes := by
    rw [nodes_addEdge _ nid b (by rw [k1]; exact hn) (by rw [k1]; exact hb), e1]
  by_cases he : ((G.addEdge nid a).addEdge nid b).hasEdge a b
  · rw [if_pos he, nodes_removeEdge]
    exact e2
  · rw [if_neg he]
    exact e2

theorem edgesWithin_spliceEdges_not_mem (S : List String) (G : Graph) (nid a b : String)
    (hnid : nid ∉ S) (ha : a ∉ S) :
    edgesWithin S (spliceEdges G nid a b).edges = edgesWithin S G.edges := by
  unfold spliceEdges
  have e1 : edgesWithin S ((G.addEdge nid a).addEdge nid b).edges = edgesWithin S G.edges := by
    rw [edgesWithin_addEdge_not_mem S _ nid b hnid, edgesWithin_addEdge_not_mem S G nid a hnid]
  by_cases he : ((G.addEdge nid a).addEdge nid b).hasEdge a b
  · rw [if_pos he, edgesWithin_removeEdge_not_mem S _ a b ha]
    exact e1
  · rw [if_neg he]
    exact e1

theorem materialize_interId (i j : Nat) (a b c d : String) (i1 i2 : Nat) (ix iy : ℚ)
    (s : P2St) : (materialize i j a b c d i1 i2 ix iy s).interId = s.interId + 1 := rfl

theorem materialize_G (i j : Nat) (a b c d : String) (i1 i2 : Nat) (ix iy : ℚ) (s : P2St) :
    (materialize i j a b c d i1 i2 ix iy s).G =
      spliceEdges (spliceEdges (s.G.addNode (mkIsId i j s.interId) ix iy)
        (mkIsId i j s.interId) a b) (mkIsId i j s.interId) c d := by
  unfold materialize
  simp only []

theorem materialize_lst (i j : Nat) (a b c d : String) (i1 i2 : Nat) (ix iy : ℚ) (s : P2St) :
    (materialize i j a b c d i1 i2 ix iy s).lst =
      (s.lst.set i ((s.lst.getD i []).insertIdx (i1 + 1) (mkIsId i j s.interId, ix, iy))).set j
        (((s.lst.set i ((s.lst.getD i []).insertIdx (i1 + 1)
            (mkIsId i j s.interId, ix, iy))).getD j []).insertIdx (i2 + 1)
          (mkIsId i j s.interId, ix, iy)) := by
  unfold materialize
  simp only []

theorem materialize_lst_length (i j : Nat) (a b c d : String) (i1 i2 : Nat) (ix iy : ℚ)
    (s : P2St) : (materialize i j a b c d i1 i2 ix iy s).lst.length = s.lst.length := by
  rw [materialize_lst]
  simp

theorem materialize_getD_other (i j t : Nat) (a b c d : String) (i1 i2 : Nat) (ix iy : ℚ)
    (s : P2St) (hti : i ≠ t) (htj : j ≠ t) :
    (materialize i j a b c d i1 i2 ix iy s).lst.getD t [] = s.lst.getD t [] := by
  rw [materialize_lst, getD_set_ne _ _ _ _ htj, getD_set_ne _ _ _ _ hti]

theorem materialize_getD_i (i j : Nat) (a b c d : String) (i1 i2 : Nat) (ix iy : ℚ)
    (s : P2St) (hi : i < s.lst.length) (hij : i ≠ j) :
    (materialize i j a b c d i1 i2 ix iy s).lst.getD i [] =
      (s.lst.getD i []).insertIdx (i1 + 1) (mkIsId i j s.interId, ix, iy) := by
  rw [materialize_lst, getD_set_ne _ _ _ _ (fun h => hij h.symm), getD_set_self _ _ _ hi]

theorem materialize_getD_j (i j : Nat) (a b c d : String) (i1 i2 : Nat) (ix iy : ℚ)
    (s : P2St) (hj : j < s.lst.length) (hij : i ≠ j) :
    (materialize i j a b c d i1 i2 ix iy s).lst.getD j [] =
      (s.lst.getD j []).insertIdx (i2 + 1) (mkIsId i j s.interId, ix, iy) := by
  rw [materialize_lst, getD_set_self _ _ _ (by simpa using hj), getD_set_ne _ _ _ _ hij]

theorem materialize_keys_fresh (i j : Nat) (a b c d : String) (i1 i2 : Nat) (ix iy : ℚ)
    (s : P2St) (hfresh : mkIsId i j s.interId ∉ s.G.keys)
    (ha : a ∈ s.G.keys) (hb : b ∈ s.G.keys) (hc : c ∈ s.G.keys) (hd : d ∈ s.G.keys) :
    (materialize i j a b c d i1 i2 ix iy s).G.keys = s.G.keys ++ [mkIsId i j s.interId] := by
  rw [materialize_G]
  have k0 : (s.G.addNode (mkIsId i j s.interId) ix iy).keys =
      s.G.keys ++ [mkIsId i j s.interId] := by
    rw [keys_addNode, if_neg hfresh]
  have mem0 : ∀ x ∈ s.G.keys, x ∈ (s.G.addNode (mkIsId i j s.interId) ix iy).keys := by
    intro x hx; rw [k0]; exact List.mem_append.mpr (Or.inl hx)
  have memn : mkIsId i j s.interId ∈ (s.G.addNode (mkIsId i j s.interId) ix iy).keys := by
    rw [k0]; simp
  rw [keys_spliceEdges _ _ c d, keys_spliceEdges _ _ a b, k0]
  · exact memn
  · exact mem0 a ha
  · exact mem0 b hb
  · rw [keys_spliceEdges _ _ a b (memn) (mem0 a ha) (mem0 b hb)]
    exact memn
  · rw [keys_spliceEdges _ _ a b (memn) (mem0 a ha) (mem0 b hb)]
    exact mem0 c hc
  · rw [keys_spliceEdges _ _ a b (memn) (mem0 a ha) (mem0 b hb)]
    exact mem0 d hd

theorem materialize_nodes_length_fresh (i j : Nat) (a b c d : String) (i1 i2 : Nat)
    (ix iy : ℚ) (s : P2St) (hfresh : mkIsId i j s.interId ∉ s.G.keys)
    (ha : a ∈ s.G.keys) (hb : b ∈ s.G.keys) (hc : c ∈ s.G.keys) (hd : d ∈ s.G.keys) :
    (materialize i j a b c d i1 i2 ix iy s).G.nodes.length = s.G.nodes.length + 1 := by
  rw [materialize_G]
  have k0 : (s.G.addNode (mkIsId i j s.interId) ix iy).keys =
      s.G.keys ++ [mkIsId i j s.interId] := by
    rw [keys_addNode, if_neg hfresh]
  have mem0 : ∀ x ∈ s.G.keys, x ∈ (s.G.addNode (mkIsId i j s.interId) ix iy).keys := by
    intro x hx; rw [k0]; exact List.mem_append.mpr (Or.inl hx)
  have memn : mkIsId i j s.interId ∈ (s.G.addNode (mkIsId i j s.interId) ix iy).keys := by
    rw [k0]; simp
  have hsp1keys : (spliceEdges (s.G.addNode (mkIsId i j s.interId) ix iy)
      (mkIsId i j s.interId) a b).keys = (s.G.addNode (mkIsId i j s.interId) ix iy).keys :=
    keys_spliceEdges _ _ a b memn (mem0 a ha) (mem0 b hb)
  rw [nodes_spliceEdges _ _ c d (by rw [hsp1keys]; exact memn) (by rw [hsp1keys]; exact mem0 c hc)
    (by rw [hsp1keys]; exact mem0 d hd)]
  rw [nodes_spliceEdges _ _ a b memn (mem0 a ha) (mem0 b hb)]
  exact length_nodes_addNode_fresh s.G _ ix iy hfresh

theorem materialize_keys_super (i j : Nat) (a b c d : String) (i1 i2 : Nat) (ix iy : ℚ)
    (s : P2St) {x : String} (hx : x ∈ s.G.keys) :
    x ∈ (materialize i j a b c d i1 i2 ix iy s).G.keys := by
  rw [materialize_G]
  exact keys_spliceEdges_super _ _ c d (keys_spliceEdges_super _ _ a b
    (keys_addNode_super _ _ ix iy hx))

theorem materialize_nid_mem (i j : Nat) (a b c d : String) (i1 i2 : Nat) (ix iy : ℚ)
    (s : P2St) : mkIsId i j s.interId ∈ (materialize i j a b c d i1 i2 ix iy s).G.keys := by
  rw [materialize_G]
  exact keys_spliceEdges_super _ _ c d (keys_spliceEdges_super _ _ a b
    (mem_keys_addNode_self _ _ ix iy))

theorem materialize_keys_elim (i j : Nat) (a b c d : String) (i1 i2 : Nat) (ix iy : ℚ)
    (s : P2St) (ha : a ∈ s.G.keys) (hb : b ∈ s.G.keys) (hc : c ∈ s.G.keys)
    (hd : d ∈ s.G.keys) {x : String}
    (hx : x ∈ (materialize i j a b c d i1 i2 ix iy s).G.keys) :
    x ∈ s.G.keys ∨ x = mkIsId i j s.interId := by
  by_cases hfresh : mkIsId i j s.interId ∈ s.G.keys
  · left
    have hkeys : (materialize i j a b c d i1 i2 ix iy s).G.keys = s.G.keys := by
      have k0 : (s.G.addNode (mkIsId i j s.interId) ix iy).keys = s.G.keys := by
        rw [keys_addNode, if_pos hfresh]
      have k1 : (spliceEdges (s.G.addNode (mkIsId i j s.interId) ix iy)
          (mkIsId i j s.interId) a b).keys = s.G.keys := by
        rw [keys_spliceEdges _ _ a b (by rw [k0]; exact hfresh) (by rw [k0]; exact ha)
          (by rw [k0]; exact hb), k0]
      rw [materialize_G, keys_spliceEdges _ _ c d (by rw [k1]; exact hfresh)
        (by rw [k1]; exact hc) (by rw [k1]; exact hd), k1]
    rw [hkeys] at hx
    exact hx
  · rw [materialize_keys_fresh i j a b c d i1 i2 ix iy s hfresh ha hb hc hd] at hx
    rcases List.mem_append.mp hx with h | h
    · exact Or.inl h
    · simp only [List.mem_singleton] at h; exact Or.inr h

theorem materialize_edgesWithin_not_mem (S : List String) (i j : Nat) (a b c d : String)
    (i1 i2 : Nat) (ix iy : ℚ) (s : P2St) (hnid : mkIsId i j s.interId ∉ S)
    (ha : a ∉ S) (hc : c ∉ S) :
    edgesWithin S (materialize i j a b c d i1 i2 ix iy s).G.edges =
      edgesWithin S s.G.edges := by
  rw [materialize_G]
  rw [edgesWithin_spliceEdges_not_mem S _ _ c d hnid hc]
  rw [edgesWithin_spliceEdges_not_mem S _ _ a b hnid ha]
  rw [edgesWithin, edgesWithin, edges_addNode]

/-! ### The master invariant step -/

theorem getD_mem_of_lt {α : Type} (l : List α) (n : Nat) (d : α) (h : n < l.length) :
    l.getD n d ∈ l := by
  simp only [List.getD_eq_getElem?_getD, List.getElem?_eq_getElem h, Option.getD_some]
  exact List.getElem_mem h

theorem segBody_ok_elim (i j : Nat) (ids1 ids2 : List String) (c1 c2 : List Pt)
    (i1 i2 : Nat) (s s' : P2St)
    (h : segBody i j ids1 ids2 c1 c2 i1 i2 s = .ok s') :
    s' = s ∨ ∃ ix iy, s' = materialize i j (ids1.getD i1 "") (ids1.getD (i1 + 1) "")
      (ids2.getD i2 "") (ids2.getD (i2 + 1) "") i1 i2 ix iy s := by
  rcases hsi : segIntersect (c1.getD i1 (0, 0)) (c1.getD (i1 + 1) (0, 0))
      (c2.getD i2 (0, 0)) (c2.getD (i2 + 1) (0, 0)) with _ | ⟨ix, iy⟩ | _ <;>
    rw [segBody, hsi] at h
  · exact Or.inl (Except.ok.inj h).symm
  · exact Or.inr ⟨ix, iy, (Except.ok.inj h).symm⟩
  · exact Except.noConfusion h

theorem materialize_master (n T m : Nat) (oSeq : List Vtx) (oPath : List (String × String))
    (avoid : List Nat)
    (hSshape : ∀ x ∈ vtxIds oSeq, ∃ loc, x = mkRId m loc)
    (i j : Nat) (hij : i < j) (hjn : j < n) (hiav : i ∈ avoid)
    (a b c d : String) (i1 i2 : Nat) (ix iy : ℚ) (s : P2St)
    (hashape : (∃ loc, a = mkRId i loc) ∨ ∃ p q r, a = mkIsId p q r)
    (hbshape : (∃ loc, b = mkRId i loc) ∨ ∃ p q r, b = mkIsId p q r)
    (hcshape : (∃ loc, c = mkRId j loc) ∨ ∃ p q r, c = mkIsId p q r)
    (hdshape : (∃ loc, d = mkRId j loc) ∨ ∃ p q r, d = mkIsId p q r)
    (haK : a ∈ s.G.keys) (hbK : b ∈ s.G.keys) (hcK : c ∈ s.G.keys) (hdK : d ∈ s.G.keys)
    (hb1 : i1 + 1 ≤ (s.lst.getD i []).length)
    (hb2 : i2 + 1 ≤ (s.lst.getD j []).length)
    (hInv : masterInv n avoid i T m oSeq oPath s) :
    masterInv n avoid i T m oSeq oPath (materialize i j a b c d i1 i2 ix iy s) ∧
      stepRel s (materialize i j a b c d i1 i2 ix iy s) := by
  obtain ⟨⟨hlen, hwf⟩, hdur, hks, hksall, hcount, hc6, hnodup⟩ := hInv
  have hin : i < n := lt_trans hij hjn
  have hilt : i < s.lst.length := by rw [hlen]; exact hin
  have hjlt : j < s.lst.length := by rw [hlen]; exact hjn
  have hijne : i ≠ j := Nat.ne_of_lt hij
  have hfresh : mkIsId i j s.interId ∉ s.G.keys := by
    intro hmem
    rcases hdur i j s.interId hmem with h | h
    · exact h hiav
    · omega
  have hkeysM := materialize_keys_fresh i j a b c d i1 i2 ix iy s hfresh haK hbK hcK hdK
  have hnidM := materialize_nid_mem i j a b c d i1 i2 ix iy s
  have hsuper : ∀ x ∈ s.G.keys, x ∈ (materialize i j a b c d i1 i2 ix iy s).G.keys :=
    fun x hx => materialize_keys_super i j a b c d i1 i2 ix iy s hx
  have helim : ∀ {x}, x ∈ (materialize i j a b c d i1 i2 ix iy s).G.keys →
      x ∈ s.G.keys ∨ x = mkIsId i j s.interId :=
    fun hx => materialize_keys_elim i j a b c d i1 i2 ix iy s haK hbK hcK hdK hx
  have hgdi := materialize_getD_i i j a b c d i1 i2 ix iy s hilt hijne
  have hgdj := materialize_getD_j i j a b c d i1 i2 ix iy s hjlt hijne
  have hgdo : ∀ t, t ≠ i → t ≠ j →
      (materialize i j a b c d i1 i2 ix iy s).lst.getD t [] = s.lst.getD t [] :=
    fun t hti htj =>
      materialize_getD_other i j t a b c d i1 i2 ix iy s (fun h => hti h.symm)
        (fun h => htj h.symm)
  have hleni : ((materialize i j a b c d i1 i2 ix iy s).lst.getD i []).length =
      (s.lst.getD i []).length + 1 := by
    rw [hgdi]
    exact List.length_insertIdx (i1 + 1) _ hb1
  have hlenj : ((materialize i j a b c d i1 i2 ix iy s).lst.getD j []).length =
      (s.lst.getD j []).length + 1 := by
    rw [hgdj]
    exact List.length_insertIdx (i2 + 1) _ hb2
  have hlenM := materialize_lst_length i j a b c d i1 i2 ix iy s
  have hrel : stepRel s (materialize i j a b c d i1 i2 ix iy s) := by
    refine ⟨hlenM.symm, ?_, hsuper⟩
    intro t
    by_cases hti : t = i
    · subst hti; omega
    · by_cases htj : t = j
      · subst htj; omega
      · rw [hgdo t hti htj]
  have hwfM : wfSt n (materialize i j a b c d i1 i2 ix iy s) := by
    refine ⟨by rw [hlenM]; exact hlen, ?_⟩
    intro t htn v hv
    by_cases hti : t = i
    · rw [hti] at hv htn ⊢
      rw [hgdi] at hv
      rcases (List.mem_insertIdx hb1).mp hv with heq | hold
      · subst heq
        exact ⟨Or.inr ⟨i, j, s.interId, rfl⟩, hnidM⟩
      · obtain ⟨hsh, hkk⟩ := hwf i htn v hold
        exact ⟨hsh, hsuper _ hkk⟩
    · by_cases htj : t = j
      · rw [htj] at hv htn ⊢
        rw [hgdj] at hv
        rcases (List.mem_insertIdx hb2).mp hv with heq | hold
        · subst heq
          exact ⟨Or.inr ⟨i, j, s.interId, rfl⟩, hnidM⟩
        · obtain ⟨hsh, hkk⟩ := hwf j htn v hold
          exact ⟨hsh, hsuper _ hkk⟩
      · rw [hgdo t hti htj] at hv
        obtain ⟨hsh, hkk⟩ := hwf t htn v hv
        exact ⟨hsh, hsuper _ hkk⟩
  have hdurM : isIdsDuring avoid i (materialize i j a b c d i1 i2 ix iy s) := by
    intro a' b' k hmem
    rcases helim hmem with hold | hnew
    · rcases hdur a' b' k hold with h | h
      · exact Or.inl h
      · refine Or.inr ⟨h.1, ?_⟩
        rw [materialize_interId]
        omega
    · obtain ⟨h1, h2, h3⟩ := mkIsId_inj hnew
      refine Or.inr ⟨h1, ?_⟩
      rw [materialize_interId]
      omega
  have hksM : ksProp (materialize i j a b c d i1 i2 ix iy s).G i
      (materialize i j a b c d i1 i2 ix iy s).interId := by
    rw [materialize_interId]
    intro k
    constructor
    · rintro ⟨j', hj'⟩
      rcases helim hj' with hold | hnew
      · have := (hks k).mp ⟨j', hold⟩
        omega
      · obtain ⟨_, _, h3⟩ := mkIsId_inj hnew
        omega
    · intro hk
      rcases Nat.lt_succ_iff_lt_or_eq.mp hk with hlt | heq
      · obtain ⟨j', hj'⟩ := (hks k).mpr hlt
        exact ⟨j', hsuper _ hj'⟩
      · subst heq
        exact ⟨j, hnidM⟩
  have hksallM : ∀ i', i' ∉ avoid →
      ∃ cc, ksProp (materialize i j a b c d i1 i2 ix iy s).G i' cc := by
    intro i' hi'
    obtain ⟨cc, hcc⟩ := hksall i' hi'
    refine ⟨cc, ?_⟩
    intro k
    constructor
    · rintro ⟨j', hj'⟩
      rcases helim hj' with hold | hnew
      · exact (hcc k).mp ⟨j', hold⟩
      · obtain ⟨h1, _, _⟩ := mkIsId_inj hnew
        exact absurd (h1 ▸ hiav) hi'
    · intro hk
      obtain ⟨j', hj'⟩ := (hcc k).mpr hk
      exact ⟨j', hsuper _ hj'⟩
  have hcountM : countEq T (materialize i j a b c d i1 i2 ix iy s) := by
    rw [countEq]
    rw [materialize_nodes_length_fresh i j a b c d i1 i2 ix iy s hfresh haK hbK hcK hdK]
    have hsum : (((materialize i j a b c d i1 i2 ix iy s).lst).map List.length).sum =
        ((s.lst.map List.length).sum) + 2 := by
      rw [materialize_lst]
      have hX := map_length_sum_set s.lst i
        ((s.lst.getD i []).insertIdx (i1 + 1) (mkIsId i j s.interId, ix, iy)) hilt
      have hXlen : ((s.lst.getD i []).insertIdx (i1 + 1)
          (mkIsId i j s.interId, ix, iy)).length = (s.lst.getD i []).length + 1 :=
        List.length_insertIdx (i1 + 1) _ hb1
      have hjlt1 : j < (s.lst.set i ((s.lst.getD i []).insertIdx (i1 + 1)
          (mkIsId i j s.interId, ix, iy))).length := by
        simp only [List.length_set]
        exact hjlt
      have hgdj1 : (s.lst.set i ((s.lst.getD i []).insertIdx (i1 + 1)
          (mkIsId i j s.interId, ix, iy))).getD j [] = s.lst.getD j [] :=
        getD_set_ne _ _ _ _ hijne
      have hY := map_length_sum_set (s.lst.set i ((s.lst.getD i []).insertIdx (i1 + 1)
          (mkIsId i j s.interId, ix, iy))) j
        (((s.lst.set i ((s.lst.getD i []).insertIdx (i1 + 1)
            (mkIsId i j s.interId, ix, iy))).getD j []).insertIdx (i2 + 1)
          (mkIsId i j s.interId, ix, iy)) hjlt1
      have hYlen : (((s.lst.set i ((s.lst.getD i []).insertIdx (i1 + 1)
          (mkIsId i j s.interId, ix, iy))).getD j []).insertIdx (i2 + 1)
            (mkIsId i j s.interId, ix, iy)).length = (s.lst.getD j []).length + 1 := by
        rw [hgdj1]
        exact List.length_insertIdx (i2 + 1) _ hb2
      have hgdj1len : ((s.lst.set i ((s.lst.getD i []).insertIdx (i1 + 1)
          (mkIsId i j s.interId, ix, iy))).getD j []).length =
            (s.lst.getD j []).length := by rw [hgdj1]
      omega
    rw [hsum]
    rw [countEq] at hcount
    omega
  have hc6M : c6Part m oSeq oPath (materialize i j a b c d i1 i2 ix iy s) := by
    have hnidS : mkIsId i j s.interId ∉ vtxIds oSeq := by
      intro hmem
      obtain ⟨loc, hl⟩ := hSshape _ hmem
      exact mkRId_ne_mkIsId m loc i j s.interId hl.symm
    rcases hc6 with ⟨hseq, hedges⟩ | hlong
    · by_cases him : i = m
      · subst him
        right
        rw [hleni, hseq]
        omega
      · by_cases hjm : j = m
        · subst hjm
          right
          rw [hlenj, hseq]
          omega
        · left
          have haS : a ∉ vtxIds oSeq := by
            intro hmem
            obtain ⟨loc, hl⟩ := hSshape _ hmem
            rcases hashape with ⟨loc', hl'⟩ | ⟨p, q, r, hl'⟩
            · exact him (mkRId_inj (hl' ▸ hl : mkRId i loc' = mkRId m loc)).1
            · exact mkRId_ne_mkIsId m loc p q r (hl ▸ hl')
          have hcS : c ∉ vtxIds oSeq := by
            intro hmem
            obtain ⟨loc, hl⟩ := hSshape _ hmem
            rcases hcshape with ⟨loc', hl'⟩ | ⟨p, q, r, hl'⟩
            · exact hjm (mkRId_inj (hl' ▸ hl : mkRId j loc' = mkRId m loc)).1
            · exact mkRId_ne_mkIsId m loc p q r (hl ▸ hl')
          refine ⟨?_, ?_⟩
          · rw [hgdo m (fun h => him h.symm) (fun h => hjm h.symm)]
            exact hseq
          · rw [materialize_edgesWithin_not_mem (vtxIds oSeq) i j a b c d i1 i2 ix iy s
              hnidS haS hcS]
            exact hedges
    · right
      by_cases him : m = i
      · subst him; omega
      · by_cases hjm : m = j
        · subst hjm; omega
        · rw [hgdo m him hjm]
          exact hlong
  have hnodupM : (materialize i j a b c d i1 i2 ix iy s).G.keys.Nodup := by
    rw [hkeysM]
    rw [List.nodup_append]
    exact ⟨hnodup, List.nodup_singleton _, by
      intro x hx hx2
      simp only [List.mem_singleton] at hx2
      subst hx2
      exact hfresh hx⟩
  exact ⟨⟨hwfM, hdurM, hksM, hksallM, hcountM, hc6M, hnodupM⟩, hrel⟩

theorem segBody_master (n T m : Nat) (oSeq : List Vtx) (oPath : List (String × String))
    (avoid : List Nat)
    (hSshape : ∀ x ∈ vtxIds oSeq, ∃ loc, x = mkRId m loc)
    (i j : Nat) (hij : i < j) (hjn : j < n) (hiav : i ∈ avoid)
    (ids1 ids2 : List String) (c1 c2 : List Pt) (i1 i2 : Nat)
    (hsnap1 : ∀ x ∈ ids1, (∃ loc, x = mkRId i loc) ∨ ∃ p q r, x = mkIsId p q r)
    (hsnap2 : ∀ x ∈ ids2, (∃ loc, x = mkRId j loc) ∨ ∃ p q r, x = mkIsId p q r)
    (s s' : P2St)
    (hk1 : ∀ x ∈ ids1, x ∈ s.G.keys)
    (hk2 : ∀ x ∈ ids2, x ∈ s.G.keys)
    (hl1 : i1 + 1 < ids1.length)
    (hl2 : i2 + 1 < ids2.length)
    (hb1 : i1 + 1 ≤ (s.lst.getD i []).length)
    (hb2 : i2 + 1 ≤ (s.lst.getD j []).length)
    (hInv : masterInv n avoid i T m oSeq oPath s)
    (h : segBody i j ids1 ids2 c1 c2 i1 i2 s = .ok s') :
    masterInv n avoid i T m oSeq oPath s' ∧ stepRel s s' := by
  rcases segBody_ok_elim i j ids1 ids2 c1 c2 i1 i2 s s' h with heq | ⟨ix, iy, heq⟩
  · subst heq
    refine ⟨hInv, ?_, ?_, ?_⟩ <;> simp [stepRel]
  · subst heq
    have hamem : ids1.getD i1 "" ∈ ids1 := getD_mem_of_lt ids1 i1 "" (by omega)
    have hbmem : ids1.getD (i1 + 1) "" ∈ ids1 := getD_mem_of_lt ids1 (i1 + 1) "" hl1
    have hcmem : ids2.getD i2 "" ∈ ids2 := getD_mem_of_lt ids2 i2 "" (by omega)
    have hdmem : ids2.getD (i2 + 1) "" ∈ ids2 := getD_mem_of_lt ids2 (i2 + 1) "" hl2
    exact materialize_master n T m oSeq oPath avoid hSshape i j hij hjn hiav
      _ _ _ _ i1 i2 ix iy s (hsnap1 _ hamem) (hsnap1 _ hbmem) (hsnap2 _ hcmem)
      (hsnap2 _ hdmem) (hk1 _ hamem) (hk1 _ hbmem) (hk2 _ hcmem) (hk2 _ hdmem)
      hb1 hb2 hInv

/-! ### Threading the invariant through the nested loops -/

theorem stepRel_refl (s : P2St) : stepRel s s := ⟨rfl, fun _ => le_refl _, fun _ h => h⟩

theorem stepRel_trans {a b c : P2St} (h1 : stepRel a b) (h2 : stepRel b c) : stepRel a c :=
  ⟨h1.1.trans h2.1, fun t => (h1.2.1 t).trans (h2.2.1 t),
    fun x hx => h2.2.2 x (h1.2.2 x hx)⟩

theorem pairBody_master (n T m : Nat) (oSeq : List Vtx) (oPath : List (String × String))
    (avoid : List Nat)
    (hSshape : ∀ x ∈ vtxIds oSeq, ∃ loc, x = mkRId m loc)
    (i j : Nat) (hij : i < j) (hjn : j < n) (hiav : i ∈ avoid)
    (s0 s' : P2St)
    (hInv : masterInv n avoid i T m oSeq oPath s0)
    (h : pairBody i s0 j = .ok s') :
    masterInv n avoid i T m oSeq oPath s' ∧ stepRel s0 s' := by
  have hin : i < n := lt_trans hij hjn
  have hlen0 : s0.lst.length = n := hInv.1.1
  have hsnap1 : ∀ x ∈ (s0.lst.getD i []).map (fun v : Vtx => v.1),
      (∃ loc, x = mkRId i loc) ∨ ∃ p q r, x = mkIsId p q r := by
    intro x hx
    obtain ⟨v, hv, hvx⟩ := List.mem_map.mp hx
    exact hvx ▸ (hInv.1.2 i hin v hv).1
  have hsnap2 : ∀ x ∈ (s0.lst.getD j []).map (fun v : Vtx => v.1),
      (∃ loc, x = mkRId j loc) ∨ ∃ p q r, x = mkIsId p q r := by
    intro x hx
    obtain ⟨v, hv, hvx⟩ := List.mem_map.mp hx
    exact hvx ▸ (hInv.1.2 j hjn v hv).1
  have hkeys1 : ∀ x ∈ (s0.lst.getD i []).map (fun v : Vtx => v.1), x ∈ s0.G.keys := by
    intro x hx
    obtain ⟨v, hv, hvx⟩ := List.mem_map.mp hx
    exact hvx ▸ (hInv.1.2 i hin v hv).2
  have hkeys2 : ∀ x ∈ (s0.lst.getD j []).map (fun v : Vtx => v.1), x ∈ s0.G.keys := by
    intro x hx
    obtain ⟨v, hv, hvx⟩ := List.mem_map.mp hx
    exact hvx ▸ (hInv.1.2 j hjn v hv).2
  rw [pairBody] at h
  refine foldlM_ok_induct
    (fun s => masterInv n avoid i T m oSeq oPath s ∧ stepRel s0 s) _ _ _ s' ?_
    ⟨hInv, stepRel_refl s0⟩ h
  intro x i1 y hi1 hPx hxy
  have hi1lt : i1 < ((s0.lst.getD i []).map (fun v : Vtx => (v.2.1, v.2.2))).length - 1 :=
    List.mem_range.mp hi1
  simp only [List.length_map] at hi1lt
  refine foldlM_ok_induct
    (fun s => masterInv n avoid i T m oSeq oPath s ∧ stepRel s0 s) _ _ _ y ?_ hPx hxy
  intro x2 i2 y2 hi2 hPx2 hxy2
  have hi2lt : i2 < ((s0.lst.getD j []).map (fun v : Vtx => (v.2.1, v.2.2))).length - 1 :=
    List.mem_range.mp hi2
  simp only [List.length_map] at hi2lt
  have hstep := segBody_master n T m oSeq oPath avoid hSshape i j hij hjn hiav
    ((s0.lst.getD i []).map (fun v : Vtx => v.1))
    ((s0.lst.getD j []).map (fun v : Vtx => v.1))
    ((s0.lst.getD i []).map (fun v : Vtx => (v.2.1, v.2.2)))
    ((s0.lst.getD j []).map (fun v : Vtx => (v.2.1, v.2.2)))
    i1 i2 hsnap1 hsnap2 x2 y2
    (fun s hs => hPx2.2.2.2 s (hkeys1 s hs))
    (fun s hs => hPx2.2.2.2 s (hkeys2 s hs))
    (by simp only [List.length_map]; omega)
    (by simp only [List.length_map]; omega)
    (by
      have := hPx2.2.2.1 i
      omega)
    (by
      have := hPx2.2.2.1 j
      omega)
    hPx2.1 hxy2
  exact ⟨hstep.1, stepRel_trans hPx2.2 hstep.2⟩

theorem outerBody_master (n T m : Nat) (oSeq : List Vtx) (oPath : List (String × String))
    (hSshape : ∀ x ∈ vtxIds oSeq, ∃ loc, x = mkRId m loc)
    (i : Nat) (rest : List Nat) (hinotin : i ∉ rest)
    (st : Graph × List (List Vtx)) (st' : Graph × List (List Vtx))
    (hInv : restInv n (i :: rest) T m oSeq oPath st)
    (h : outerBody n st i = .ok st') :
    restInv n rest T m oSeq oPath st' := by
  rw [outerBody] at h
  cases hfold : (List.range' (i + 1) (n - 1 - i)).foldlM (pairBody i)
      { G := st.1, lst := st.2, interId := 0 } with
  | error e => rw [hfold] at h; exact Except.noConfusion h
  | ok s2 =>
    rw [hfold] at h
    simp only [Except.map] at h
    have hst' : st' = (s2.G, s2.lst) := (Except.ok.inj h).symm
    have hInit : masterInv n (i :: rest) i T m oSeq oPath ⟨st.1, st.2, 0⟩ := by
      obtain ⟨hwf, hnois, hksall, hcount, hc6, hnodup⟩ := hInv
      refine ⟨hwf, ?_, ?_, ?_, hcount, hc6, hnodup⟩
      · intro a b k hmem
        exact Or.inl (hnois a b k hmem)
      · intro k
        constructor
        · rintro ⟨j', hj'⟩
          exact absurd (List.mem_cons_self i rest) (hnois i j' k hj')
        · intro hk
          exact absurd hk (by simp)
      · intro i' hi'
        exact hksall i' hi' 
    have hFold : masterInv n (i :: rest) i T m oSeq oPath s2 := by
      refine (foldlM_ok_induct (fun s => masterInv n (i :: rest) i T m oSeq oPath s ∧
        stepRel ⟨st.1, st.2, 0⟩ s) _ _ _ s2 ?_ ⟨hInit, stepRel_refl _⟩ hfold).1
      intro x j y hjmem hPx hxy
      have hjr := List.mem_range'_1.mp hjmem
      have hij : i < j := by omega
      have hjn : j < n := by omega
      have hstep := pairBody_master n T m oSeq oPath (i :: rest) hSshape i j hij hjn
        (List.mem_cons_self i rest) x y hPx.1 hxy
      exact ⟨hstep.1, stepRel_trans hPx.2 hstep.2⟩
    obtain ⟨hwf2, hdur2, hks2, hksall2, hcount2, hc62, hnodup2⟩ := hFold
    subst hst'
    refine ⟨hwf2, ?_, ?_, hcount2, hc62, hnodup2⟩
    · intro a b k hmem
      rcases hdur2 a b k hmem with hno | ⟨ha, _⟩
      · intro hr
        exact hno (List.mem_cons_of_mem i hr)
      · subst ha
        exact hinotin
    · intro i' hi'
      by_cases hii : i' = i
      · subst hii
        exact ⟨s2.interId, hks2⟩
      · refine hksall2 i' ?_
        intro hmem
        rcases List.mem_cons.mp hmem with h | h
        · exact hii h
        · exact hi' h

theorem part2_master (n T m : Nat) (oSeq : List Vtx) (oPath : List (String × String))
    (hSshape : ∀ x ∈ vtxIds oSeq, ∃ loc, x = mkRId m loc)
    (st0 st' : Graph × List (List Vtx))
    (hInv : restInv n (List.range (n - 1)) T m oSeq oPath st0)
    (h : part2 n st0 = .ok st') :
    restInv n [] T m oSeq oPath st' := by
  rw [part2] at h
  refine (foldlM_ok_suffix
    (fun st rest => rest.Nodup ∧ restInv n rest T m oSeq oPath st) _ _ _ _ ?_
    ⟨List.nodup_range (n - 1), hInv⟩ h).2
  intro x a rest y hP hxy
  obtain ⟨hna, hnr⟩ := List.nodup_cons.mp hP.1
  exact ⟨hnr, outerBody_master n T m oSeq oPath hSshape a rest hna x y hP.2 hxy⟩

/-! ### The initial state after line assembly -/

theorem allLstFrom_length : ∀ (L : List (List InPoint)) (c : Nat),
    (allLstFrom c L).length = L.length := by
  intro L
  induction L with
  | nil => intro c; rfl
  | cons p rest ih => intro c; simp [allLstFrom, ih (c + 1)]

theorem allLstFrom_getD : ∀ (L : List (List InPoint)) (c t : Nat), t < L.length →
    (allLstFrom c L).getD t [] = rewriteLine (c + t) (L.getD t []) := by
  intro L
  induction L with
  | nil => intro c t h; simp at h
  | cons p rest ih =>
    intro c t h
    cases t with
    | zero => simp [allLstFrom]
    | succ t =>
      simp only [allLstFrom, List.getD_cons_succ]
      rw [ih (c + 1) t (by simp at h; omega)]
      congr 1
      omega

theorem allLstFrom_sum : ∀ (L : List (List InPoint)) (c : Nat),
    ((allLstFrom c L).map List.length).sum = (L.map List.length).sum := by
  intro L
  induction L with
  | nil => intro c; rfl
  | cons p rest ih =>
    intro c
    simp only [allLstFrom, List.map_cons, List.sum_cons, ih (c + 1)]
    simp [rewriteLine]

theorem allNodesFrom_length : ∀ (L : List (List InPoint)) (c : Nat),
    (allNodesFrom c L).length = (L.map List.length).sum := by
  intro L
  induction L with
  | nil => intro c; rfl
  | cons p rest ih =>
    intro c
    simp [allNodesFrom, ih (c + 1)]

theorem allNodesFrom_keys_shape : ∀ (L : List (List InPoint)) (c : Nat) (x : String),
    x ∈ (allNodesFrom c L).map (·.1) → ∃ i loc, x = mkRId i loc := by
  intro L
  induction L with
  | nil => intro c x h; simp [allNodesFrom] at h
  | cons p rest ih =>
    intro c x h
    simp only [allNodesFrom, List.map_append, List.mem_append] at h
    rcases h with h | h
    · simp only [List.map_map, List.mem_map] at h
      obtain ⟨q, _, hq⟩ := h
      exact ⟨c, q.1, hq.symm⟩
    · exact ih (c + 1) x h

theorem mem_allNodesFrom_keys : ∀ (L : List (List InPoint)) (c t : Nat) (loc : Nat),
    t < L.length → loc ∈ (L.getD t []).map (·.1) →
      mkRId (c + t) loc ∈ (allNodesFrom c L).map (·.1) := by
  intro L
  induction L with
  | nil => intro c t loc h _; simp at h
  | cons p rest ih =>
    intro c t loc h hloc
    simp only [allNodesFrom, List.map_append, List.mem_append]
    cases t with
    | zero =>
      left
      simp only [List.getD_cons_zero] at hloc
      simp only [List.map_map, List.mem_map]
      obtain ⟨q, hq, hql⟩ := List.mem_map.mp hloc
      exact ⟨q, hq, by simp [Function.comp, hql]⟩
    | succ t =>
      right
      have := ih (c + 1) t loc (by simp at h; omega) (by simpa using hloc)
      have harith : c + 1 + t = c + (t + 1) := by omega
      rw [harith] at this
      exact this

theorem consecPairs_length {α : Type} (l : List α) :
    (consecPairs l).length = l.length - 1 := by
  rw [consecPairs, List.length_zip, List.length_tail]
  omega

theorem pathEdges_length (i : Nat) (pts : List InPoint) :
    (pathEdges i pts).length = pts.length - 1 := by
  rw [pathEdges, consecPairs_length]
  simp [lineNodeIds]

theorem edgesWithin_pathEdges_ne (m t : Nat) (ptsm pts : List InPoint) (hne : t ≠ m) :
    edgesWithin (lineNodeIds m ptsm) (pathEdges t pts) = [] := by
  rw [edgesWithin, List.filter_eq_nil_iff]
  intro e he
  have hm := mem_consecPairs _ e he
  obtain ⟨loc, hl⟩ := mem_lineNodeIds hm.1
  simp only [Bool.and_eq_true, not_and]
  intro hc _
  have hmem := List.contains_iff_exists_mem_beq.mp hc
  obtain ⟨x, hx, hbeq⟩ := hmem
  obtain ⟨loc', hl'⟩ := mem_lineNodeIds hx
  have : e.1 = x := by
    have := (beq_iff_eq).mp hbeq
    exact this
  rw [this, hl'] at hl
  exact hne (mkRId_inj hl).1.symm

theorem edgesWithin_pathEdges_self (m : Nat) (ptsm : List InPoint) :
    edgesWithin (lineNodeIds m ptsm) (pathEdges m ptsm) = pathEdges m ptsm := by
  rw [edgesWithin, List.filter_eq_self]
  intro e he
  have hm := mem_consecPairs _ e he
  simp only [Bool.and_eq_true]
  constructor
  · rw [List.contains_iff_exists_mem_beq]
    exact ⟨e.1, hm.1, beq_self_eq_true e.1⟩
  · rw [List.contains_iff_exists_mem_beq]
    exact ⟨e.2, hm.2, beq_self_eq_true e.2⟩

theorem edgesWithin_allEdgesFrom_miss (m : Nat) (ptsm : List InPoint) :
    ∀ (L : List (List InPoint)) (c : Nat), (∀ idx, idx < L.length → c + idx ≠ m) →
      edgesWithin (lineNodeIds m ptsm) (allEdgesFrom c L) = [] := by
  intro L
  induction L with
  | nil => intro c _; rfl
  | cons p rest ih =>
    intro c hmiss
    simp only [allEdgesFrom]
    rw [edgesWithin_append]
    rw [edgesWithin_pathEdges_ne m c ptsm p (by have := hmiss 0 (by simp); omega)]
    rw [ih (c + 1) (by
      intro idx hidx
      have := hmiss (idx + 1) (by simp; omega)
      omega)]
    rfl

theorem edgesWithin_allEdgesFrom_hit (m : Nat) (ptsm : List InPoint) :
    ∀ (L : List (List InPoint)) (c : Nat), c ≤ m → m < c + L.length →
      L.getD (m - c) [] = ptsm →
      edgesWithin (lineNodeIds m ptsm) (allEdgesFrom c L) = pathEdges m ptsm := by
  intro L
  induction L with
  | nil => intro c h1 h2 _; simp at h2; omega
  | cons p rest ih =>
    intro c hle hlt hget
    simp only [allEdgesFrom]
    rw [edgesWithin_append]
    by_cases hcm : c = m
    · subst hcm
      simp only [Nat.sub_self, List.getD_cons_zero] at hget
      subst hget
      rw [edgesWithin_pathEdges_self]
      rw [edgesWithin_allEdgesFrom_miss c p rest (c + 1) (by intro idx _; omega)]
      simp
    · have hclt : c < m := by omega
      rw [edgesWithin_pathEdges_ne m c ptsm p hcm]
      have hsub : m - c = (m - (c + 1)) + 1 := by omega
      rw [hsub, List.getD_cons_succ] at hget
      rw [ih (c + 1) (by omega) (by simp at hlt; omega) hget]
      rfl

theorem allNodesFrom_keys_shape_ge : ∀ (L : List (List InPoint)) (c : Nat) (x : String),
    x ∈ (allNodesFrom c L).map (·.1) → ∃ i loc, c ≤ i ∧ x = mkRId i loc := by
  intro L
  induction L with
  | nil => intro c x h; simp [allNodesFrom] at h
  | cons p rest ih =>
    intro c x h
    simp only [allNodesFrom, List.map_append, List.mem_append] at h
    rcases h with h | h
    · simp only [List.map_map, List.mem_map] at h
      obtain ⟨q, _, hq⟩ := h
      exact ⟨c, q.1, le_refl c, hq.symm⟩
    · obtain ⟨i, loc, hle, hx⟩ := ih (c + 1) x h
      exact ⟨i, loc, by omega, hx⟩

theorem allNodesFrom_keys_nodup : ∀ (L : List (List InPoint)) (c : Nat),
    (∀ pts ∈ L, (pts.map (·.1)).Nodup) → ((allNodesFrom c L).map (·.1)).Nodup := by
  intro L
  induction L with
  | nil => intro c _; simp [allNodesFrom]
  | cons p rest ih =>
    intro c hnd
    simp only [allNodesFrom, List.map_append]
    rw [List.nodup_append]
    refine ⟨?_, ih (c + 1) (fun q hq => hnd q (List.mem_cons_of_mem p hq)), ?_⟩
    · simp only [List.map_map]
      have : (List.map ((fun x => x.1) ∘ fun q : InPoint => (mkRId c q.1, some (q.2.1, q.2.2)))
          p) = (p.map (·.1)).map (mkRId c) := by
        simp [Function.comp]
      rw [this]
      exact (hnd p (List.mem_cons_self p rest)).map (fun a b h => (mkRId_inj h).2)
    · intro x hx hx2
      simp only [List.map_map, List.mem_map] at hx
      obtain ⟨q, _, hq⟩ := hx
      obtain ⟨i, loc, hle, hx'⟩ := allNodesFrom_keys_shape_ge rest (c + 1) x hx2
      rw [← hq] at hx'
      simp only [Function.comp] at hx'
      have := (mkRId_inj hx').1
      omega

/-- The state produced by line assembly satisfies the PART 2 entry
invariant. -/
theorem initial_restInv (L : List (List InPoint)) (m : Nat) (hm : m < L.length)
    (hnd : ∀ pts ∈ L, (pts.map (·.1)).Nodup) :
    restInv L.length (List.range (L.length - 1)) ((L.map List.length).sum) m
      (rewriteLine m (L.getD m [])) (pathEdges m (L.getD m []))
      ((part1 L).1, (part1 L).2) := by
  rw [part1_spec L hnd]
  have hkeys : (Graph.mk (allNodesFrom 0 L) (allEdgesFrom 0 L)).keys =
      (allNodesFrom 0 L).map (·.1) := rfl
  have hnois : ∀ a b k, mkIsId a b k ∈ (allNodesFrom 0 L).map (·.1) → False := by
    intro a b k hmem
    obtain ⟨i, loc, hx⟩ := allNodesFrom_keys_shape L 0 _ hmem
    exact mkRId_ne_mkIsId i loc a b k hx.symm
  refine ⟨⟨?_, ?_⟩, ?_, ?_, ?_, ?_, ?_⟩
  · simpa using allLstFrom_length L 0
  · intro t htn v hv
    simp only at hv
    rw [allLstFrom_getD L 0 t htn] at hv
    simp only [Nat.zero_add] at hv
    obtain ⟨q, hq, hqv⟩ := List.mem_map.mp hv
    constructor
    · left
      exact ⟨q.1, by rw [← hqv]⟩
    · rw [hkeys, ← hqv]
      have := mem_allNodesFrom_keys L 0 t q.1 htn (List.mem_map_of_mem (·.1) hq)
      simpa using this
  · intro a b k hmem
    exact absurd hmem (fun h => hnois a b k h)
  · intro i' _
    refine ⟨0, fun k => ⟨?_, ?_⟩⟩
    · rintro ⟨j', hj'⟩
      exact absurd hj' (fun h => hnois i' j' k h)
    · intro hk
      exact absurd hk (by omega)
  · rw [countEq]
    simp only
    rw [allNodesFrom_length L 0, allLstFrom_sum L 0]
    omega
  · left
    constructor
    · simp only
      rw [allLstFrom_getD L 0 m hm]
      simp
    · simp only
      rw [vtxIds, rewriteLine_fst]
      exact edgesWithin_allEdgesFrom_hit m (L.getD m []) L 0 (Nat.zero_le m)
        (by omega) (by simp)
  · exact allNodesFrom_keys_nodup L 0 hnd

/-! ### Claim C6 — untouched lines stay simple paths -/

/-- C6: for a well-formed input (distinct local ids within each line) and a
line `m` that receives no intersection vertex during resolution (its working
sequence keeps its original length — every materialized crossing involving
`m` splices a vertex into it), the output graph restricted to `m`'s derived
node ids is exactly the original simple path: its edge set is the list of
consecutive-vertex pairs, it has `k − 1` edges, and a line with at most one
point contributes no edges. -/
theorem C6_untouched_line_is_path (L : List (List InPoint)) (m : Nat) (G : Graph)
    (lst' : List (List Vtx))
    (hnd : ∀ pts ∈ L, (pts.map (·.1)).Nodup)
    (hm : m < L.length)
    (hrun : create_network_full L = .ok (G, lst'))
    (huntouched : (lst'.getD m []).length = (L.getD m []).length) :
    edgesWithin (lineNodeIds m (L.getD m [])) G.edges = pathEdges m (L.getD m []) ∧
      (edgesWithin (lineNodeIds m (L.getD m [])) G.edges).length =
        (L.getD m []).length - 1 ∧
      ((L.getD m []).length ≤ 1 →
        edgesWithin (lineNodeIds m (L.getD m [])) G.edges = []) := by
  rw [create_network_full] at hrun
  have hSshape : ∀ x ∈ vtxIds (rewriteLine m (L.getD m [])), ∃ loc, x = mkRId m loc := by
    intro x hx
    rw [vtxIds, rewriteLine_fst] at hx
    exact mem_lineNodeIds hx
  have hres := part2_master L.length ((L.map List.length).sum) m
    (rewriteLine m (L.getD m [])) (pathEdges m (L.getD m [])) hSshape
    ((part1 L).1, (part1 L).2) (G, lst') (initial_restInv L m hm hnd) hrun
  obtain ⟨_, _, _, _, hc6, _⟩ := hres
  rcases hc6 with ⟨_, hedges⟩ | hlong
  · rw [vtxIds, rewriteLine_fst] at hedges
    refine ⟨hedges, ?_, ?_⟩
    · rw [hedges, pathEdges_length]
    · intro hshort
      rw [hedges]
      have := pathEdges_length m (L.getD m [])
      have hlen0 : (pathEdges m (L.getD m [])).length = 0 := by omega
      exact List.length_eq_zero.mp hlen0
  · exfalso
    simp only [rewriteLine, List.length_map] at hlong
    omega

set_option maxRecDepth 10000 in
/-- Witness for C6: two disjoint lines; line 0 (three vertices) is untouched
and induces exactly its two consecutive edges. -/
theorem C6_untouched_line_is_path_witness :
    (∀ pts ∈ [[(1, 0, 0), (2, 1, 0), (3, 2, 0)], [(1, 5, 5), (2, 6, 5)]],
      ((pts.map (fun p : InPoint => p.1)).Nodup)) ∧
    create_network_full [[(1, 0, 0), (2, 1, 0), (3, 2, 0)], [(1, 5, 5), (2, 6, 5)]] =
      .ok (⟨[("r_0_1", some (0, 0)), ("r_0_2", some (1, 0)), ("r_0_3", some (2, 0)),
             ("r_1_1", some (5, 5)), ("r_1_2", some (6, 5))],
            [("r_0_1", "r_0_2"), ("r_0_2", "r_0_3"), ("r_1_1", "r_1_2")]⟩,
           [[("r_0_1", 0, 0), ("r_0_2", 1, 0), ("r_0_3", 2, 0)],
            [("r_1_1", 5, 5), ("r_1_2", 6, 5)]]) ∧
    (edgesWithin (lineNodeIds 0 ([[(1, 0, 0), (2, 1, 0), (3, 2, 0)],
        [(1, 5, 5), (2, 6, 5)]].getD 0 []))
        (⟨[("r_0_1", some (0, 0)), ("r_0_2", some (1, 0)), ("r_0_3", some (2, 0)),
           ("r_1_1", some (5, 5)), ("r_1_2", some (6, 5))],
          [("r_0_1", "r_0_2"), ("r_0_2", "r_0_3"), ("r_1_1", "r_1_2")]⟩ : Graph).edges =
      pathEdges 0 ([[(1, 0, 0), (2, 1, 0), (3, 2, 0)], [(1, 5, 5), (2, 6, 5)]].getD 0 []) ∧
      (edgesWithin (lineNodeIds 0 ([[(1, 0, 0), (2, 1, 0), (3, 2, 0)],
          [(1, 5, 5), (2, 6, 5)]].getD 0 []))
          (⟨[("r_0_1", some (0, 0)), ("r_0_2", some (1, 0)), ("r_0_3", some (2, 0)),
             ("r_1_1", some (5, 5)), ("r_1_2", some (6, 5))],
            [("r_0_1", "r_0_2"), ("r_0_2", "r_0_3"), ("r_1_1", "r_1_2")]⟩ : Graph).edges).length =
        ([[(1, 0, 0), (2, 1, 0), (3, 2, 0)], [(1, 5, 5), (2, 6, 5)]].getD 0 []).length - 1 ∧
      (([[(1, 0, 0), (2, 1, 0), (3, 2, 0)], [(1, 5, 5), (2, 6, 5)]].getD 0 []).length ≤ 1 →
        edgesWithin (lineNodeIds 0 ([[(1, 0, 0), (2, 1, 0), (3, 2, 0)],
            [(1, 5, 5), (2, 6, 5)]].getD 0 []))
            (⟨[("r_0_1", some (0, 0)), ("r_0_2", some (1, 0)), ("r_0_3", some (2, 0)),
               ("r_1_1", some (5, 5)), ("r_1_2", some (6, 5))],
              [("r_0_1", "r_0_2"), ("r_0_2", "r_0_3"), ("r_1_1", "r_1_2")]⟩ : Graph).edges = [])) :=
  ⟨by decide, by decide,
    C6_untouched_line_is_path [[(1, 0, 0), (2, 1, 0), (3, 2, 0)], [(1, 5, 5), (2, 6, 5)]]
      0
      ⟨[("r_0_1", some (0, 0)), ("r_0_2", some (1, 0)), ("r_0_3", some (2, 0)),
        ("r_1_1", some (5, 5)), ("r_1_2", some (6, 5))],
       [("r_0_1", "r_0_2"), ("r_0_2", "r_0_3"), ("r_1_1", "r_1_2")]⟩
      [[("r_0_1", 0, 0), ("r_0_2", 1, 0), ("r_0_3", 2, 0)],
       [("r_1_1", 5, 5), ("r_1_2", 6, 5)]]
      (by decide) (by decide) (by decide) (by decide)⟩

/-! ### Claim C9 — node id freshness (corrected accounting) -/

/-- C9: for well-formed input (distinct local ids within each line), every
`add_node` call of `create_network` uses a fresh id, so no node is merged or
overwritten.  In this model `add_node` on an existing key overwrites it
(leaving the node count unchanged) while a fresh key appends; freshness of
every add is equivalent to the bookkeeping equation `2·#nodes = Σ original
lengths + Σ final working-sequence lengths` (each materialized crossing adds
one node and two sequence entries), together with the node keys being
pairwise distinct. -/
theorem C9_node_ids_unique (L : List (List InPoint)) (G : Graph) (lst' : List (List Vtx))
    (hnd : ∀ pts ∈ L, (pts.map (·.1)).Nodup)
    (hrun : create_network_full L = .ok (G, lst')) :
    G.keys.Nodup ∧
      2 * G.nodes.length = (L.map List.length).sum + (lst'.map List.length).sum := by
  cases L with
  | nil =>
    have h0 : create_network_full ([] : List (List InPoint)) =
        .ok (⟨[], []⟩, ([] : List (List Vtx))) := by decide
    rw [h0] at hrun
    obtain ⟨hG, hl⟩ := Prod.mk.injEq _ _ _ _ |>.mp (Except.ok.inj hrun)
    subst hG
    subst hl
    exact ⟨List.nodup_nil, rfl⟩
  | cons p rest =>
    rw [create_network_full] at hrun
    have hSshape : ∀ x ∈ vtxIds (rewriteLine 0 ((p :: rest).getD 0 [])),
        ∃ loc, x = mkRId 0 loc := by
      intro x hx
      rw [vtxIds, rewriteLine_fst] at hx
      exact mem_lineNodeIds hx
    have hres := part2_master (p :: rest).length (((p :: rest).map List.length).sum) 0
      (rewriteLine 0 ((p :: rest).getD 0 [])) (pathEdges 0 ((p :: rest).getD 0 [])) hSshape
      ((part1 (p :: rest)).1, (part1 (p :: rest)).2) (G, lst')
      (initial_restInv (p :: rest) 0 (by simp) hnd) hrun
    obtain ⟨_, _, _, hcount, _, hnodup⟩ := hres
    exact ⟨hnodup, hcount⟩

set_option maxRecDepth 10000 in
/-- Witness for C9 at the spec's crossing example: 5 nodes, original lengths
2 + 2, final sequence lengths 3 + 3. -/
theorem C9_node_ids_unique_witness :
    (∀ pts ∈ [[(1, 0, 0), (2, 2, 0)], [(1, 1, -1), (2, 1, 1)]],
      ((pts.map (fun p : InPoint => p.1)).Nodup)) ∧
    (["r_0_1", "r_0_2", "r_1_1", "r_1_2", "is_0_1_0"] : List String).Nodup ∧
      2 * (5 : Nat) = ([[(1, 0, 0), (2, 2, 0)],
          [(1, 1, -1), (2, 1, 1)]].map List.length).sum +
        (([[("r_0_1", (0 : ℚ), (0 : ℚ)), ("is_0_1_0", 1, 0), ("r_0_2", 2, 0)],
           [("r_1_1", 1, -1), ("is_0_1_0", 1, 0), ("r_1_2", 1, 1)]] :
            List (List Vtx)).map List.length).sum := by
  refine ⟨by decide, ?_⟩
  have h := C9_node_ids_unique [[(1, 0, 0), (2, 2, 0)], [(1, 1, -1), (2, 1, 1)]]
    ⟨[("r_0_1", some (0, 0)), ("r_0_2", some (2, 0)), ("r_1_1", some (1, -1)),
      ("r_1_2", some (1, 1)), ("is_0_1_0", some (1, 0))],
     [("is_0_1_0", "r_0_1"), ("is_0_1_0", "r_0_2"),
      ("is_0_1_0", "r_1_1"), ("is_0_1_0", "r_1_2")]⟩
    [[("r_0_1", 0, 0), ("is_0_1_0", 1, 0), ("r_0_2", 2, 0)],
     [("r_1_1", 1, -1), ("is_0_1_0", 1, 0), ("r_1_2", 1, 1)]]
    (by decide) (by decide)
  exact ⟨h.1, h.2⟩

/-! ### Claim C3, amended — per-first-line consecutive numbering -/

/-- C3 (amended): for well-formed input, the `k`-components of the
intersection-node ids `is_<i>_<j>_<k>` present in the output graph form, for
each fixed first index `i`, a consecutive range `0 … c−1`: the counter starts
at `0` once per outer line `i` and increases by one with each intersection
discovered for that `i` across all partners `j` (it is not reset per
pair). -/
theorem C3_per_first_line_counter (L : List (List InPoint)) (G : Graph)
    (hnd : ∀ pts ∈ L, (pts.map (·.1)).Nodup)
    (hrun : create_network L = .ok G) :
    ∀ i, ∃ c, ∀ k, (∃ j, mkIsId i j k ∈ G.keys) ↔ k < c := by
  rw [create_network] at hrun
  cases hfull : create_network_full L with
  | error e => rw [hfull] at hrun; exact Except.noConfusion hrun
  | ok r =>
    rw [hfull] at hrun
    simp only [Except.map] at hrun
    have hG : r.1 = G := Except.ok.inj hrun
    cases L with
    | nil =>
      have h0 : create_network_full ([] : List (List InPoint)) =
          .ok (⟨[], []⟩, ([] : List (List Vtx))) := by decide
      rw [h0] at hfull
      have hr := Except.ok.inj hfull
      intro i
      refine ⟨0, fun k => ⟨?_, ?_⟩⟩
      · rintro ⟨j, hj⟩
        rw [← hG, ← hr] at hj
        simp [Graph.keys] at hj
      · intro hk
        exact absurd hk (by omega)
    | cons p rest =>
      have hSshape : ∀ x ∈ vtxIds (rewriteLine 0 ((p :: rest).getD 0 [])),
          ∃ loc, x = mkRId 0 loc := by
        intro x hx
        rw [vtxIds, rewriteLine_fst] at hx
        exact mem_lineNodeIds hx
      rw [create_network_full] at hfull
      have hres := part2_master (p :: rest).length (((p :: rest).map List.length).sum) 0
        (rewriteLine 0 ((p :: rest).getD 0 [])) (pathEdges 0 ((p :: rest).getD 0 [])) hSshape
        ((part1 (p :: rest)).1, (part1 (p :: rest)).2) (r.1, r.2)
        (initial_restInv (p :: rest) 0 (by simp) hnd) hfull
      obtain ⟨_, _, hksall, _, _, _⟩ := hres
      intro i
      have := hksall i (by simp)
      rw [hG] at this
      exact this

set_option maxRecDepth 10000 in
/-- Witness for C3 (amended) at the three-line input: for `i = 0` the present
`k`-components are exactly `{0, 1}`. -/
theorem C3_per_first_line_counter_witness :
    (∀ pts ∈ [[(1, 0, 0), (2, 4, 0)], [(1, 1, -1), (2, 1, 1)], [(1, 3, -1), (2, 3, 1)]],
      ((pts.map (fun p : InPoint => p.1)).Nodup)) ∧
    ∀ i, ∃ c, ∀ k,
      (∃ j, mkIsId i j k ∈
        (⟨[("r_0_1", some (0, 0)), ("r_0_2", some (4, 0)), ("r_1_1", some (1, -1)),
           ("r_1_2", some (1, 1)), ("r_2_1", some (3, -1)), ("r_2_2", some (3, 1)),
           ("is_0_1_0", some (1, 0)), ("is_0_2_1", some (3, 0))],
          [("is_0_1_0", "r_0_1"), ("is_0_1_0", "r_1_1"), ("is_0_1_0", "r_1_2"),
           ("is_0_2_1", "is_0_1_0"), ("is_0_2_1", "r_0_2"), ("is_0_2_1", "r_2_1"),
           ("is_0_2_1", "r_2_2")]⟩ : Graph).keys) ↔ k < c :=
  ⟨by decide,
    C3_per_first_line_counter
      [[(1, 0, 0), (2, 4, 0)], [(1, 1, -1), (2, 1, 1)], [(1, 3, -1), (2, 3, 1)]]
      _ (by decide) (by decide)⟩

/-! ### Store lemmas for the aliasing/frame claim -/

theorem lookup_eq_none_of_keys {β : Type} :
    ∀ (l : List (Nat × β)) (a : Nat), (∀ p ∈ l, p.1 ≠ a) → l.lookup a = none := by
  intro l
  induction l with
  | nil => intro a _; rfl
  | cons p t ih =>
    intro a h
    obtain ⟨k, b⟩ := p
    have hk : k ≠ a := h (k, b) (by simp)
    have hbeq : (a == k) = false := by simp [Ne.symm hk]
    simp [List.lookup, hbeq, ih a (fun q hq => h q (by simp [hq]))]

theorem mem_keys_of_lookup {β : Type} :
    ∀ (l : List (Nat × β)) (a : Nat) (v : β), l.lookup a = some v → a ∈ l.map Prod.fst := by
  intro l
  induction l with
  | nil => intro a v h; simp [List.lookup] at h
  | cons p t ih =>
    intro a v h
    obtain ⟨k, b⟩ := p
    by_cases hk : a = k
    · simp [hk]
    · have hbeq : (a == k) = false := by simp [hk]
      simp only [List.lookup, hbeq] at h
      simp [ih a v h]

theorem lookup_cons_self {β : Type} (a : Nat) (v : β) (t : List (Nat × β)) :
    List.lookup a ((a, v) :: t) = some v := by
  simp [List.lookup]

theorem lookup_cons_ne {β : Type} (a k : Nat) (v : β) (t : List (Nat × β)) (h : a ≠ k) :
    List.lookup a ((k, v) :: t) = List.lookup a t := by
  have hbeq : (a == k) = false := by simp [h]
  simp [List.lookup, hbeq]

theorem lookup_map_update {β : Type} :
    ∀ (l : List (Nat × β)) (a : Nat) (rows : β),
      a ∈ l.map Prod.fst →
      (l.map (fun p => if p.1 = a then (a, rows) else p)).lookup a = some rows := by
  intro l
  induction l with
  | nil => intro a rows h; simp at h
  | cons p t ih =>
    intro a rows h
    obtain ⟨k, b⟩ := p
    by_cases hk : k = a
    · subst hk
      rw [List.map_cons]
      have hhead : (if ((k, b) : Nat × β).1 = k then (k, rows) else (k, b)) = (k, rows) := by
        simp
      rw [hhead, lookup_cons_self]
    · rw [List.map_cons]
      have hhead : (if ((k, b) : Nat × β).1 = a then (a, rows) else (k, b)) = (k, b) := by
        simp [hk]
      have hmem : a ∈ t.map Prod.fst := by
        simp only [List.map_cons, List.mem_cons] at h
        rcases h with h1 | h1
        · exact absurd h1.symm hk
        · exact h1
      rw [hhead, lookup_cons_ne _ _ _ _ (fun hak => hk hak.symm)]
      exact ih a rows hmem

theorem lookup_map_update_ne {β : Type} :
    ∀ (l : List (Nat × β)) (a b : Nat) (rows : β),
      b ≠ a →
      (l.map (fun p => if p.1 = a then (a, rows) else p)).lookup b = l.lookup b := by
  intro l
  induction l with
  | nil => intro a b rows _; rfl
  | cons p t ih =>
    intro a b rows h
    obtain ⟨k, c⟩ := p
    by_cases hk : k = a
    · subst hk
      rw [List.map_cons]
      have hhead : (if ((k, c) : Nat × β).1 = k then (k, rows) else (k, c)) = (k, rows) := by
        simp
      rw [hhead, lookup_cons_ne _ _ _ _ h, lookup_cons_ne _ _ _ _ h]
      exact ih k b rows h
    · rw [List.map_cons]
      have hhead : (if ((k, c) : Nat × β).1 = a then (a, rows) else (k, c)) = (k, c) := by
        simp [hk]
      rw [hhead]
      by_cases hbk : b = k
      · subst hbk
        rw [lookup_cons_self, lookup_cons_self]
      · rw [lookup_cons_ne _ _ _ _ hbk, lookup_cons_ne _ _ _ _ hbk]
        exact ih a b rows h

theorem lookup_append_singleton_ne {β : Type} :
    ∀ (l : List (Nat × β)) (k : Nat) (v : β) (a : Nat),
      a ≠ k → (l ++ [(k, v)]).lookup a = l.lookup a := by
  intro l
  induction l with
  | nil =>
    intro k v a h
    have hbeq : (a == k) = false := by simp [h]
    simp [List.lookup, hbeq]
  | cons p t ih =>
    intro k v a h
    obtain ⟨k', b⟩ := p
    by_cases hk : a = k'
    · simp [List.lookup, hk]
    · have hbeq : (a == k') = false := by simp [hk]
      simp only [List.cons_append, List.lookup, hbeq]
      exact ih k v a h

theorem lookup_append_singleton_self {β : Type} :
    ∀ (l : List (Nat × β)) (a : Nat) (v : β),
      (∀ p ∈ l, p.1 ≠ a) → (l ++ [(a, v)]).lookup a = some v := by
  intro l
  induction l with
  | nil => intro a v _; simp [List.lookup]
  | cons p t ih =>
    intro a v h
    obtain ⟨k, b⟩ := p
    have hk : k ≠ a := h (k, b) (by simp)
    have hbeq : (a == k) = false := by simp [Ne.symm hk]
    simp only [List.cons_append, List.lookup, hbeq]
    exact ih a v (fun q hq => h q (by simp [hq]))

theorem Store.read_write_self (σ : Store) (a : Nat) (rows : List Row)
    (h : a ∈ σ.mem.map Prod.fst) : (σ.write a rows).read a = rows := by
  simp [Store.read, Store.write, lookup_map_update σ.mem a rows h]

theorem Store.read_write_ne (σ : Store) (a b : Nat) (rows : List Row)
    (h : b ≠ a) : (σ.write a rows).read b = σ.read b := by
  simp [Store.read, Store.write, lookup_map_update_ne σ.mem a b rows h]

theorem Store.write_next (σ : Store) (a : Nat) (rows : List Row) :
    (σ.write a rows).next = σ.next := rfl

theorem Store.write_keys (σ : Store) (a : Nat) (rows : List Row) :
    (σ.write a rows).mem.map Prod.fst = σ.mem.map Prod.fst := by
  simp only [Store.write, List.map_map]
  apply List.map_congr_left
  intro p _
  simp only [Function.comp]
  by_cases hk : p.1 = a
  · simp [hk]
  · simp [hk]

theorem Store.alloc_read_ne (σ : Store) (rows : List Row) (a : Nat) (h : a ≠ σ.next) :
    (σ.alloc rows).1.read a = σ.read a := by
  simp [Store.alloc, Store.read, lookup_append_singleton_ne σ.mem σ.next rows a h]

theorem Store.alloc_read_self (σ : Store) (rows : List Row) (hwf : σ.wf) :
    (σ.alloc rows).1.read σ.next = rows := by
  have hnone : ∀ p ∈ σ.mem, p.1 ≠ σ.next := fun p hp => Nat.ne_of_lt (hwf p hp)
  simp [Store.alloc, Store.read, lookup_append_singleton_self σ.mem σ.next rows hnone]

theorem Store.alloc_wf (σ : Store) (rows : List Row) (hwf : σ.wf) :
    (σ.alloc rows).1.wf := by
  intro p hp
  simp only [Store.alloc] at hp ⊢
  rcases List.mem_append.mp hp with h | h
  · exact Nat.lt_succ_of_lt (hwf p h)
  · simp only [List.mem_singleton] at h
    subst h
    exact Nat.lt_succ_self _

theorem Store.alloc_next (σ : Store) (rows : List Row) :
    (σ.alloc rows).1.next = σ.next + 1 := rfl

theorem wf_of_keys (σ σ' : Store) (hk : σ'.mem.map Prod.fst = σ.mem.map Prod.fst)
    (hn : σ'.next = σ.next) (hwf : σ.wf) : σ'.wf := by
  intro p hp
  have hmem : p.1 ∈ σ'.mem.map Prod.fst := List.mem_map_of_mem Prod.fst hp
  rw [hk] at hmem
  rcases List.mem_map.mp hmem with ⟨q, hq, hq1⟩
  rw [hn, ← hq1]
  exact hwf q hq

theorem set_append_len {α : Type} :
    ∀ (l1 : List α) (r : α) (l2 : List α) (v : α),
      (l1 ++ r :: l2).set l1.length v = l1 ++ v :: l2 := by
  intro l1
  induction l1 with
  | nil => intro r l2 v; rfl
  | cons x t ih =>
    intro r l2 v
    simp only [List.cons_append, List.length_cons, List.set_cons_succ]
    rw [ih r l2 v]

theorem getD_append_len {α : Type} :
    ∀ (l1 : List α) (r : α) (l2 : List α) (d : α),
      (l1 ++ r :: l2).getD l1.length d = r := by
  intro l1
  induction l1 with
  | nil => intro r l2 d; rfl
  | cons x t ih =>
    intro r l2 d
    simp only [List.cons_append, List.length_cons, List.getD_cons_succ]
    exact ih r l2 d

theorem getD_map_of_lt {α β : Type} (f : α → β) (l : List α) (j : Nat) (d : β) (d' : α)
    (h : j < l.length) : (l.map f).getD j d = f (l.getD j d') := by
  have h1 : l[j]? = some l[j] := List.getElem?_eq_getElem h
  simp [List.getD_eq_getElem?_getD, List.getElem?_map, h1]

theorem foldl_congr_on {β α : Type} :
    ∀ (l : List α) (f g : β → α → β),
      (∀ x a, a ∈ l → f x a = g x a) → ∀ s, l.foldl f s = l.foldl g s := by
  intro l
  induction l with
  | nil => intro f g _ s; rfl
  | cons a t ih =>
    intro f g h s
    simp only [List.foldl_cons]
    rw [h s a (by simp)]
    exact ih f g (fun x b hb => h x b (by simp [hb])) _

theorem nodeFold_snd (g : Nat) :
    ∀ (pts : List InPoint) (G : Graph) (acc : List Vtx),
      (pts.foldl
          (fun (st : Graph × List Vtx) p =>
            (st.1.addNode (mkRId g p.1) p.2.1 p.2.2, st.2 ++ [(mkRId g p.1, p.2.1, p.2.2)]))
          (G, acc)).2 = acc ++ rewriteLine g pts := by
  intro pts
  induction pts with
  | nil => intro G acc; simp [rewriteLine]
  | cons p t ih =>
    intro G acc
    simp only [List.foldl_cons]
    rw [ih]
    simp [rewriteLine]

theorem part1Line_snd (g : Nat) (pts : List InPoint) (G : Graph) :
    (part1Line g pts G).2 = rewriteLine g pts := by
  rw [part1Line]
  simp only []
  rw [nodeFold_snd]
  simp

theorem p1hNode_eq (g arr : Nat) (σ : Store) (G : Graph) (acc : List Vtx) (m : Nat)
    (x y : ℚ) (rest' : List Row)
    (hread : σ.read arr = acc.map rowOfVtx ++ (Cell.num m, x, y) :: rest') :
    p1hNode g arr (σ, G) acc.length =
      (σ.write arr ((acc ++ [(mkRId g m, x, y)]).map rowOfVtx ++ rest'),
       G.addNode (mkRId g m) x y) := by
  rw [p1hNode]
  simp only []
  rw [hread]
  have hlen : acc.length = (acc.map rowOfVtx).length := by simp
  rw [hlen, getD_append_len, set_append_len]
  simp [mkRId, rowOfVtx, Cell.fmt]

theorem part1Heap_nodeFold (g arr : Nat) :
    ∀ (rest : List Row) (acc : List Vtx) (σ : Store) (G : Graph),
      σ.read arr = acc.map rowOfVtx ++ rest →
      (∀ r ∈ rest, ∃ m, r.1 = Cell.num m) →
      ∀ (acc2 : List Vtx),
        ((List.range' acc.length rest.length).foldl (p1hNode g arr) (σ, G)).2 =
          ((rest.map Row.toInPoint).foldl
            (fun (st : Graph × List Vtx) p =>
              (st.1.addNode (mkRId g p.1) p.2.1 p.2.2, st.2 ++ [(mkRId g p.1, p.2.1, p.2.2)]))
            (G, acc2)).1 ∧
        ((List.range' acc.length rest.length).foldl (p1hNode g arr) (σ, G)).1.read arr =
          (acc ++ rewriteLine g (rest.map Row.toInPoint)).map rowOfVtx ∧
        (∀ b, b ≠ arr →
          ((List.range' acc.length rest.length).foldl (p1hNode g arr) (σ, G)).1.read b =
            σ.read b) ∧
        ((List.range' acc.length rest.length).foldl (p1hNode g arr) (σ, G)).1.next = σ.next ∧
        ((List.range' acc.length rest.length).foldl (p1hNode g arr) (σ, G)).1.mem.map Prod.fst =
          σ.mem.map Prod.fst := by
  intro rest
  induction rest with
  | nil =>
    intro acc σ G hread _ acc2
    refine ⟨rfl, ?_, fun b _ => rfl, rfl, rfl⟩
    show σ.read arr = (acc ++ rewriteLine g (([] : List Row).map Row.toInPoint)).map rowOfVtx
    rw [hread]
    simp [rewriteLine]
  | cons r rest' ih =>
    intro acc σ G hread hnum acc2
    obtain ⟨c, x, y⟩ := r
    obtain ⟨m, hm⟩ := hnum (c, x, y) (by simp)
    simp only [] at hm
    subst hm
    have hmem : arr ∈ σ.mem.map Prod.fst := by
      cases hopt : σ.mem.lookup arr with
      | none =>
        have hre : σ.read arr = [] := by simp [Store.read, hopt]
        rw [hread] at hre
        exact absurd hre (by simp)
      | some v => exact mem_keys_of_lookup σ.mem arr v hopt
    have hstep := p1hNode_eq g arr σ G acc m x y rest' hread
    have hread' : (σ.write arr ((acc ++ [(mkRId g m, x, y)]).map rowOfVtx ++ rest')).read arr
        = (acc ++ [(mkRId g m, x, y)]).map rowOfVtx ++ rest' :=
      Store.read_write_self σ arr _ hmem
    have hnum' : ∀ q ∈ rest', ∃ m2, q.1 = Cell.num m2 := fun q hq => hnum q (by simp [hq])
    have hih := ih (acc ++ [(mkRId g m, x, y)])
      (σ.write arr ((acc ++ [(mkRId g m, x, y)]).map rowOfVtx ++ rest'))
      (G.addNode (mkRId g m) x y) hread' hnum' (acc2 ++ [(mkRId g m, x, y)])
    have hlen1 : (acc ++ [(mkRId g m, x, y)]).length = acc.length + 1 := by simp
    rw [hlen1] at hih
    rw [List.length_cons, List.range'_succ, List.foldl_cons, hstep]
    rw [List.map_cons, List.foldl_cons]
    simp only [Row.toInPoint]
    refine ⟨hih.1, ?_, ?_, ?_, ?_⟩
    · rw [hih.2.1]
      simp [rewriteLine, List.append_assoc]
    · intro b hb
      rw [hih.2.2.1 b hb, Store.read_write_ne σ arr b _ hb]
    · rw [hih.2.2.2.1, Store.write_next]
    · rw [hih.2.2.2.2, Store.write_keys]

theorem part1HeapLine_spec (σ : Store) (g arr : Nat) (G : Graph)
    (hnum : σ.numericArr arr) :
    (part1HeapLine σ g arr G).2 = (part1Line g ((σ.read arr).map Row.toInPoint) G).1 ∧
    (part1HeapLine σ g arr G).1.read arr =
      (rewriteLine g ((σ.read arr).map Row.toInPoint)).map rowOfVtx ∧
    (∀ b, b ≠ arr → (part1HeapLine σ g arr G).1.read b = σ.read b) ∧
    (part1HeapLine σ g arr G).1.next = σ.next ∧
    (part1HeapLine σ g arr G).1.mem.map Prod.fst = σ.mem.map Prod.fst := by
  have hnf := part1Heap_nodeFold g arr (σ.read arr) [] σ G (by simp) hnum []
  simp only [List.length_nil, List.map_nil, List.nil_append, List.append_nil] at hnf
  rw [← List.range_eq_range'] at hnf
  obtain ⟨h1, h2, h3, h4, h5⟩ := hnf
  refine ⟨?_, h2, h3, h4, h5⟩
  show (List.range ((σ.read arr).length - 1)).foldl
      (p1hEdge arr ((List.range (σ.read arr).length).foldl (p1hNode g arr) (σ, G)).1)
      (((List.range (σ.read arr).length).foldl (p1hNode g arr) (σ, G)).2)
    = (part1Line g ((σ.read arr).map Row.toInPoint) G).1
  rw [part1Line]
  simp only []
  rw [nodeFold_snd]
  simp only [List.nil_append]
  have hlenr : (rewriteLine g ((σ.read arr).map Row.toInPoint)).length = (σ.read arr).length := by
    simp [rewriteLine]
  rw [hlenr, h1]
  apply foldl_congr_on
  intro gq j hj
  have hj' : j < (σ.read arr).length - 1 := List.mem_range.mp hj
  rw [p1hEdge]
  rw [h2]
  rw [getD_map_of_lt rowOfVtx _ j _ ("", 0, 0) (by rw [hlenr]; omega),
      getD_map_of_lt rowOfVtx _ (j + 1) _ ("", 0, 0) (by rw [hlenr]; omega)]
  simp [rowOfVtx, Cell.fmt]

theorem allocFold_spec :
    ∀ (L : List Nat) (σ : Store) (acc : List Nat),
      σ.wf → (∀ a ∈ L, a < σ.next) →
      (L.foldl allocStep (σ, acc)).2 = acc ++ List.range' σ.next L.length ∧
      (L.foldl allocStep (σ, acc)).1.next = σ.next + L.length ∧
      (∀ b, b < σ.next → (L.foldl allocStep (σ, acc)).1.read b = σ.read b) ∧
      (∀ t, t < L.length →
        (L.foldl allocStep (σ, acc)).1.read (σ.next + t) = σ.read (L.getD t 0)) ∧
      (L.foldl allocStep (σ, acc)).1.wf := by
  intro L
  induction L with
  | nil =>
    intro σ acc hwf _
    refine ⟨by simp, by simp, fun b _ => rfl, fun t ht => absurd ht (by simp), hwf⟩
  | cons a L' ih =>
    intro σ acc hwf hdom
    have ha : a < σ.next := hdom a (by simp)
    have hstep : allocStep (σ, acc) a = ((σ.alloc (σ.read a)).1, acc ++ [σ.next]) := rfl
    have hwf1 : (σ.alloc (σ.read a)).1.wf := Store.alloc_wf σ _ hwf
    have hnext1 : (σ.alloc (σ.read a)).1.next = σ.next + 1 := rfl
    have hdom' : ∀ b ∈ L', b < (σ.alloc (σ.read a)).1.next := by
      intro b hb
      rw [hnext1]
      exact Nat.lt_succ_of_lt (hdom b (by simp [hb]))
    have hih := ih (σ.alloc (σ.read a)).1 (acc ++ [σ.next]) hwf1 hdom'
    rw [List.foldl_cons, hstep]
    refine ⟨?_, ?_, ?_, ?_, hih.2.2.2.2⟩
    · rw [hih.1, hnext1, List.length_cons, List.range'_succ]
      simp
    · rw [hih.2.1, hnext1, List.length_cons]
      omega
    · intro b hb
      rw [hih.2.2.1 b (by rw [hnext1]; omega)]
      exact Store.alloc_read_ne σ _ b (by omega)
    · intro t ht
      cases t with
      | zero =>
        have hpres := hih.2.2.1 σ.next (by rw [hnext1]; omega)
        rw [Nat.add_zero, hpres, Store.alloc_read_self σ _ hwf]
        rfl
      | succ t =>
        have ht' : t < L'.length := by
          simp only [List.length_cons] at ht
          omega
        have hnewr := hih.2.2.2.1 t ht'
        rw [hnext1] at hnewr
        have harith : σ.next + (t + 1) = σ.next + 1 + t := by omega
        rw [harith, hnewr]
        have hmemL : L'.getD t 0 ∈ L' := getD_mem_of_lt L' t 0 ht'
        rw [Store.alloc_read_ne σ _ _ (Nat.ne_of_lt (hdom _ (List.mem_cons_of_mem a hmemL)))]
        rfl

theorem part1HeapFold_sim :
    ∀ (ids : List Nat) (σ : Store) (G : Graph) (c : Nat),
      ids.Nodup → (∀ a ∈ ids, σ.numericArr a) →
      (∀ (acc : List (List Vtx)),
        (ids.foldl heapLineStep (σ, G, c)).2.1 =
          ((ids.map (fun a => (σ.read a).map Row.toInPoint)).foldl
            (fun (st : Graph × List (List Vtx) × Nat) pts =>
              ((part1Line st.2.2 pts st.1).1, st.2.1 ++ [(part1Line st.2.2 pts st.1).2],
                st.2.2 + 1))
            (G, acc, c)).1) ∧
      (ids.foldl heapLineStep (σ, G, c)).2.2 = c + ids.length ∧
      (∀ t, t < ids.length →
        (ids.foldl heapLineStep (σ, G, c)).1.read (ids.getD t 0) =
          (rewriteLine (c + t) ((σ.read (ids.getD t 0)).map Row.toInPoint)).map rowOfVtx) ∧
      (∀ b, b ∉ ids → (ids.foldl heapLineStep (σ, G, c)).1.read b = σ.read b) ∧
      (ids.foldl heapLineStep (σ, G, c)).1.next = σ.next ∧
      (ids.foldl heapLineStep (σ, G, c)).1.mem.map Prod.fst = σ.mem.map Prod.fst := by
  intro ids
  induction ids with
  | nil =>
    intro σ G c _ _
    refine ⟨fun acc => rfl, by simp, fun t ht => absurd ht (by simp), fun b _ => rfl, rfl, rfl⟩
  | cons a ids' ih =>
    intro σ G c hnd hnum
    have hnda : a ∉ ids' := (List.nodup_cons.mp hnd).1
    have hnd' : ids'.Nodup := (List.nodup_cons.mp hnd).2
    have hnma := hnum a (by simp)
    have hsp := part1HeapLine_spec σ c a G hnma
    have hstep : heapLineStep (σ, G, c) a =
        ((part1HeapLine σ c a G).1, (part1HeapLine σ c a G).2, c + 1) := rfl
    have hreads' : ∀ b ∈ ids', (part1HeapLine σ c a G).1.read b = σ.read b := by
      intro b hb
      exact hsp.2.2.1 b (fun hba => hnda (hba ▸ hb))
    have hnum' : ∀ b ∈ ids', (part1HeapLine σ c a G).1.numericArr b := by
      intro b hb r hr
      rw [hreads' b hb] at hr
      exact hnum b (by simp [hb]) r hr
    have hih := ih (part1HeapLine σ c a G).1 (part1HeapLine σ c a G).2 (c + 1) hnd' hnum'
    obtain ⟨ihG, ihC, ihRead, ihOther, ihNext, ihKeys⟩ := hih
    rw [List.foldl_cons, hstep]
    refine ⟨?_, ?_, ?_, ?_, ?_, ?_⟩
    · intro acc
      rw [List.map_cons, List.foldl_cons]
      rw [ihG (acc ++ [(part1Line c ((σ.read a).map Row.toInPoint) G).2])]
      have hmap : ids'.map (fun b => ((part1HeapLine σ c a G).1.read b).map Row.toInPoint) =
          ids'.map (fun b => (σ.read b).map Row.toInPoint) := by
        apply List.map_congr_left
        intro b hb
        rw [hreads' b hb]
      rw [hmap, hsp.1]
    · rw [ihC]
      simp only [List.length_cons]
      omega
    · intro t ht
      cases t with
      | zero =>
        rw [List.getD_cons_zero, ihOther a hnda, hsp.2.1]
        simp
      | succ t =>
        have ht' : t < ids'.length := by
          simp only [List.length_cons] at ht
          omega
        rw [List.getD_cons_succ, ihRead t ht',
          hreads' (ids'.getD t 0) (getD_mem_of_lt ids' t 0 ht')]
        have harith : c + 1 + t = c + (t + 1) := by omega
        rw [harith]
    · intro b hb
      have hb1 : b ≠ a := fun h => hb (by simp [h])
      have hb2 : b ∉ ids' := fun h => hb (by simp [h])
      rw [ihOther b hb2, hsp.2.2.1 b hb1]
    · rw [ihNext, hsp.2.2.2.1]
    · rw [ihKeys, hsp.2.2.2.2]

theorem part1_snd_go :
    ∀ (R : List (List InPoint)) (G : Graph) (acc : List (List Vtx)) (c : Nat),
      (R.foldl
        (fun (st : Graph × List (List Vtx) × Nat) pts =>
          ((part1Line st.2.2 pts st.1).1, st.2.1 ++ [(part1Line st.2.2 pts st.1).2],
            st.2.2 + 1))
        (G, acc, c)).2.1 = acc ++ allLstFrom c R := by
  intro R
  induction R with
  | nil => intro G acc c; simp [allLstFrom]
  | cons pts rest ih =>
    intro G acc c
    simp only [List.foldl_cons]
    rw [ih, part1Line_snd]
    simp [allLstFrom]

theorem map_rowOfVtx_fmt (l : List Vtx) :
    (l.map rowOfVtx).map (fun r : Row => (r.1.fmt, r.2.1, r.2.2)) = l := by
  induction l with
  | nil => rfl
  | cons v t ih =>
    obtain ⟨s, x, y⟩ := v
    simp only [List.map_cons, ih]
    simp [rowOfVtx, Cell.fmt]

theorem create_network_heap_spec (σ : Store) (L : List Nat)
    (hwf : σ.wf) (hdom : ∀ a ∈ L, a < σ.next) (hnum : ∀ a ∈ L, σ.numericArr a) :
    (create_network_heap σ L).2 =
      create_network (L.map (fun a => (σ.read a).map Row.toInPoint)) ∧
    (∀ b, b < σ.next → (create_network_heap σ L).1.read b = σ.read b) ∧
    (create_network_heap σ L).1.next = σ.next + L.length ∧
    (create_network_heap σ L).1.wf := by
  obtain ⟨hids, hanext, hold, hnew, hawf⟩ := allocFold_spec L σ [] hwf hdom
  simp only [List.nil_append] at hids
  rw [create_network_heap]
  simp only []
  rw [hids]
  have hndup : (List.range' σ.next L.length).Nodup := List.nodup_range' _ _
  have hlenids : (List.range' σ.next L.length).length = L.length := by simp
  have hgetDids : ∀ t, t < L.length → (List.range' σ.next L.length).getD t 0 = σ.next + t := by
    intro t ht
    rw [List.getD_eq_getElem _ _ (by rw [hlenids]; exact ht)]
    simp [List.getElem_range']
  have hnum2 : ∀ a ∈ List.range' σ.next L.length,
      (L.foldl allocStep (σ, [])).1.numericArr a := by
    intro a ha
    obtain ⟨hle, hlt⟩ := List.mem_range'_1.mp ha
    have ht : a - σ.next < L.length := by omega
    have hread : (L.foldl allocStep (σ, [])).1.read a = σ.read (L.getD (a - σ.next) 0) := by
      have h1 := hnew (a - σ.next) ht
      have h2 : σ.next + (a - σ.next) = a := by omega
      rw [h2] at h1
      exact h1
    intro r hr
    rw [hread] at hr
    exact hnum (L.getD (a - σ.next) 0) (getD_mem_of_lt L _ 0 ht) r hr
  obtain ⟨hsimG, hsimC, hsimRead, hsimOther, hsimNext, hsimKeys⟩ :=
    part1HeapFold_sim (List.range' σ.next L.length) (L.foldl allocStep (σ, [])).1
      Graph.empty 0 hndup hnum2
  have hmapeq : (List.range' σ.next L.length).map
      (fun a => ((L.foldl allocStep (σ, [])).1.read a).map Row.toInPoint) =
      L.map (fun a => (σ.read a).map Row.toInPoint) := by
    apply List.ext_getElem
    · simp
    · intro i h1 h2
      simp only [List.getElem_map, List.getElem_range', Nat.one_mul]
      have hi : i < L.length := by simpa using h2
      have h3 := hnew i hi
      rw [h3, List.getD_eq_getElem L 0 hi]
  have hlst : (List.range' σ.next L.length).map
        (fun a => (((List.range' σ.next L.length).foldl heapLineStep
            ((L.foldl allocStep (σ, [])).1, Graph.empty, 0)).1.read a).map
          (fun r => (r.1.fmt, r.2.1, r.2.2))) =
      allLstFrom 0 (L.map (fun a => (σ.read a).map Row.toInPoint)) := by
    apply List.ext_getElem
    · simp [allLstFrom_length]
    · intro i h1 h2
      have hi : i < L.length := by simpa using h1
      simp only [List.getElem_map, List.getElem_range', Nat.one_mul]
      have hread := hsimRead i (by rw [hlenids]; exact hi)
      rw [hgetDids i hi] at hread
      rw [hread, map_rowOfVtx_fmt, hnew i hi]
      rw [← List.getD_eq_getElem (allLstFrom 0 (L.map fun a => (σ.read a).map Row.toInPoint))
        [] h2]
      rw [allLstFrom_getD _ 0 i (by simpa [allLstFrom_length] using h2)]
      rw [getD_map_of_lt _ L i _ 0 hi]
  refine ⟨?_, ?_, ?_, ?_⟩
  · rw [create_network, create_network_full]
    have hlen' : (L.map (fun a => (σ.read a).map Row.toInPoint)).length = L.length := by simp
    rw [hlen']
    have hpart1 : part1 (L.map (fun a => (σ.read a).map Row.toInPoint)) =
        (((L.map (fun a => (σ.read a).map Row.toInPoint)).foldl
          (fun (st : Graph × List (List Vtx) × Nat) pts =>
            ((part1Line st.2.2 pts st.1).1, st.2.1 ++ [(part1Line st.2.2 pts st.1).2],
              st.2.2 + 1))
          (Graph.empty, [], 0)).1,
         ((L.map (fun a => (σ.read a).map Row.toInPoint)).foldl
          (fun (st : Graph × List (List Vtx) × Nat) pts =>
            ((part1Line st.2.2 pts st.1).1, st.2.1 ++ [(part1Line st.2.2 pts st.1).2],
              st.2.2 + 1))
          (Graph.empty, [], 0)).2.1) := rfl
    rw [hpart1]
    have hGeq : ((List.range' σ.next L.length).foldl heapLineStep
        ((L.foldl allocStep (σ, [])).1, Graph.empty, 0)).2.1 =
        ((L.map (fun a => (σ.read a).map Row.toInPoint)).foldl
          (fun (st : Graph × List (List Vtx) × Nat) pts =>
            ((part1Line st.2.2 pts st.1).1, st.2.1 ++ [(part1Line st.2.2 pts st.1).2],
              st.2.2 + 1))
          (Graph.empty, [], 0)).1 := by
      have hg := hsimG []
      rw [hmapeq] at hg
      exact hg
    rw [hGeq, hlst, part1_snd_go]
    simp only [List.nil_append]
  · intro b hb
    have hb2 : b ∉ List.range' σ.next L.length := by
      intro hmem
      obtain ⟨hle, _⟩ := List.mem_range'_1.mp hmem
      omega
    rw [hsimOther b hb2, hold b hb]
  · rw [hsimNext, hanext]
  · exact wf_of_keys (L.foldl allocStep (σ, [])).1 _ hsimKeys hsimNext hawf

/-! ### Claim C10 — the input arrays are never mutated -/

/-- C10: run through an explicit store whose arrays hold the caller's input
(`Lst = L.copy()` shares the array objects, but every slot is immediately
replaced by a fresh `astype(object)` copy, and all writes go through those
fresh copies), `create_network` leaves every pre-existing array unchanged:
after a run, every array id allocated before the call reads back exactly its
old contents, the returned value equals the pure function of the dereferenced
input contents, and a second run on the same store returns the same graph. -/
theorem C10_no_input_mutation (σ : Store) (L : List Nat)
    (hwf : σ.wf) (hdom : ∀ a ∈ L, a < σ.next) (hnum : ∀ a ∈ L, σ.numericArr a) :
    (∀ b, b < σ.next → (create_network_heap σ L).1.read b = σ.read b) ∧
    (create_network_heap σ L).2 =
      create_network (L.map (fun a => (σ.read a).map Row.toInPoint)) ∧
    (create_network_heap ((create_network_heap σ L).1) L).2 = (create_network_heap σ L).2 := by
  obtain ⟨hres, hframe, hnext, hwf'⟩ := create_network_heap_spec σ L hwf hdom hnum
  refine ⟨hframe, hres, ?_⟩
  have hdom' : ∀ a ∈ L, a < (create_network_heap σ L).1.next := by
    intro a ha
    rw [hnext]
    exact Nat.lt_of_lt_of_le (hdom a ha) (Nat.le_add_right _ _)
  have hnum' : ∀ a ∈ L, (create_network_heap σ L).1.numericArr a := by
    intro a ha r hr
    rw [hframe a (hdom a ha)] at hr
    exact hnum a ha r hr
  obtain ⟨hres2, _, _, _⟩ :=
    create_network_heap_spec (create_network_heap σ L).1 L hwf' hdom' hnum'
  rw [hres2, hres]
  congr 1
  apply List.map_congr_left
  intro a ha
  rw [hframe a (hdom a ha)]

/-- Witness for C10: on the concrete two-array store `storeEx`, both input
arrays read back unchanged after the run, the returned value is the pure run
on the dereferenced contents, and running again returns the same value. -/
theorem C10_no_input_mutation_witness :
    (∀ b, b < storeEx.next → (create_network_heap storeEx [0, 1]).1.read b = storeEx.read b) ∧
    (create_network_heap storeEx [0, 1]).2 =
      create_network ([0, 1].map (fun a => (storeEx.read a).map Row.toInPoint)) ∧
    (create_network_heap ((create_network_heap storeEx [0, 1]).1) [0, 1]).2 =
      (create_network_heap storeEx [0, 1]).2 :=
  C10_no_input_mutation storeEx [0, 1]
    (by
      show ∀ p ∈ storeEx.mem, p.1 < storeEx.next
      decide)
    (by decide)
    (by
      intro a ha r hr
      rcases List.mem_cons.mp ha with rfl | ha
      · have h0 : storeEx.read 0 = [(Cell.num 1, 0, 0), (Cell.num 2, 1, 0)] := rfl
        rw [h0] at hr
        rcases List.mem_cons.mp hr with rfl | hr
        · exact ⟨1, rfl⟩
        rcases List.mem_cons.mp hr with rfl | hr
        · exact ⟨2, rfl⟩
        · exact absurd hr (List.not_mem_nil r)
      rcases List.mem_cons.mp ha with rfl | ha
      · have h1 : storeEx.read 1 = [(Cell.num 1, 5, 5), (Cell.num 2, 6, 5)] := rfl
        rw [h1] at hr
        rcases List.mem_cons.mp hr with rfl | hr
        · exact ⟨1, rfl⟩
        rcases List.mem_cons.mp hr with rfl | hr
        · exact ⟨2, rfl⟩
        · exact absurd hr (List.not_mem_nil r)
      · exact absurd ha (List.not_mem_nil a))

end Grax
